import Mathlib

/-!
Verification development for the tochka trading exchange core.

The definitions below are a shallow embedding of the matching, settlement and
balance-freezing engine found in `src/app/services/order_service.py`,
`src/app/services/balance_service.py`, `src/app/repositories/order.py` and
`src/app/api/v1/order.py`.  Python integers become `Nat` (every subtraction in
the source is guarded by an explicit comparison raising `InsufficientBalance`
or `OrderExecutionError`, so truncated subtraction agrees with the source);
nullable columns become `Option`; raised exceptions become `Except` /
explicit result types; the SQLAlchemy session is threaded as an explicit
`ExchState` value, with `rollback` modelled by returning to the state the
transaction started from (the dependency in `src/app/core/database.py` never
commits on its own, so only explicit `commit` calls persist anything).
Database rows are association lists keyed by primary key; the ORM identity
map is mirrored by always reading and updating the first (unique) entry for a
key.
-/

namespace Tochka

abbrev UserId := Nat

abbrev Ticker := String

/-- The configured base (cash) instrument, `settings.base_instrument_ticker`
in `src/app/core/config.py` (default "RUB"). -/
def baseInstrumentTicker : Ticker := "RUB"

/-- Python truthiness of an optional integer, as used by checks such as
`if price:` in the source. -/
def truthy : Option Nat → Bool
  | none => false
  | some n => n != 0

/-- Direction enumeration from `src/app/models/order.py`. -/
inductive DirectionEnum
  | ASK
  | BID
deriving DecidableEq, Repr

/-- Status enumeration from `src/app/models/order.py`. -/
inductive OrderStatusEnum
  | NEW
  | EXECUTED
  | PARTIALLY_EXECUTED
  | CANCELLED
deriving DecidableEq, Repr

/-- A row of the `orders` table (`src/app/models/order.py`).  There is no
stored original quantity: the API reconstructs `qty` as `amount + filled`
(`_format_order_response` in `src/app/api/v1/order.py`). -/
structure Order where
  id : Nat
  user_id : UserId
  instrument_ticker : Ticker
  amount : Nat
  filled : Nat
  price : Option Nat
  direction : DirectionEnum
  status : OrderStatusEnum
  created_at : Nat
deriving DecidableEq, Repr

/-- A row of the `transactions` (trades) table; `user_from_id` is the seller
and `user_to_id` the buyer, as in `OrderService._execute_buy`. -/
structure Transaction where
  user_from_id : UserId
  user_to_id : UserId
  instrument_ticker : Ticker
  amount : Nat
  price : Nat
deriving DecidableEq, Repr

/-- Association-list lookup returning the first value stored under a key;
rows are keyed by primary key so the first entry is the row. -/
def lookupVal {κ : Type} [DecidableEq κ] : List (κ × Nat) → κ → Option Nat
  | [], _ => none
  | (k', v) :: rest, k => if k' = k then some v else lookupVal rest k

/-- Apply `f` to the value stored under `k` (first entry), mirroring an ORM
mutation of the fetched row. -/
def adjustVal {κ : Type} [DecidableEq κ] : List (κ × Nat) → κ → (Nat → Nat) → List (κ × Nat)
  | [], _, _ => []
  | (k', v) :: rest, k, f => if k' = k then (k', f v) :: rest else (k', v) :: adjustVal rest k f

/-- Sum of all stored values. -/
def sumVals {κ : Type} (l : List (κ × Nat)) : Nat := (l.map Prod.snd).sum

/-- The persistent store: users (id, cash balance), inventories
((user, ticker), quantity), registered instrument tickers, orders, trades. -/
structure ExchState where
  users : List (UserId × Nat)
  inventories : List ((UserId × Ticker) × Nat)
  instruments : List Ticker
  orders : List Order
  transactions : List Transaction
deriving DecidableEq, Repr

/-- `OrderRepository.get_by_id`: first order with the given primary key. -/
def findOrder : List Order → Nat → Option Order
  | [], _ => none
  | o :: rest, oid => if o.id = oid then some o else findOrder rest oid

/-- Replace the first order with the given id, mirroring an ORM mutation of
the fetched row. -/
def replaceOrder : List Order → Nat → Order → List Order
  | [], _, _ => []
  | o :: rest, oid, o' => if o.id = oid then o' :: rest else o :: replaceOrder rest oid o'

/-- Domain errors from `src/app/core/exceptions.py`. -/
inductive DomainError
  | NotFound (resource : String)
  | InsufficientBalance (ticker : Ticker) (required available : Nat)
  | OrderExecution (msg : String)
  | PermissionDenied (msg : String)
deriving DecidableEq, Repr

/-- Python `str(e)` of the exception (its `message` attribute). -/
def DomainError.message : DomainError → String
  | .NotFound r => r ++ " not found"
  | .InsufficientBalance _ _ _ => "Insufficient balance"
  | .OrderExecution m => m
  | .PermissionDenied m => m

/-- HTTP status carried by the exception (`status_code` attribute). -/
def DomainError.statusCode : DomainError → Nat
  | .NotFound _ => 404
  | .InsufficientBalance _ _ _ => 400
  | .OrderExecution _ => 422
  | .PermissionDenied _ => 403

/-- `OrderService._execute_buy` (order_service.py lines 248-286): settle one
fill of an incoming BID against a resting ASK.  Credits the seller's cash,
debits the buyer's cash (checked), credits the buyer's inventory, and appends
the trade.  The resting seller's inventory is not touched: it was debited at
freeze time. -/
def executeBuy (st : ExchState) (sellerId buyerId : UserId) (ticker : Ticker)
    (price amount : Nat) : Except DomainError ExchState :=
  match lookupVal st.users buyerId, lookupVal st.users sellerId,
      lookupVal st.inventories (buyerId, ticker) with
  | some buyerBal, some _, some _ =>
    let totalCost := amount * price
    if buyerBal < totalCost then
      .error (.InsufficientBalance baseInstrumentTicker totalCost buyerBal)
    else
      .ok { st with
        transactions := st.transactions ++
          [{ user_from_id := sellerId, user_to_id := buyerId,
             instrument_ticker := ticker, amount := amount, price := price }],
        users := adjustVal (adjustVal st.users sellerId (· + totalCost)) buyerId (· - totalCost),
        inventories := adjustVal st.inventories (buyerId, ticker) (· + amount) }
  | _, _, _ => .error (.NotFound "User or inventory")

/-- `OrderService._execute_sell` (order_service.py lines 288-329): settle one
fill of an incoming ASK against a resting BID.  Credits the seller's cash,
debits the seller's inventory (checked), credits the buyer's inventory, and
appends the trade.  The resting buyer's cash is not touched: it was debited
at freeze time. -/
def executeSell (st : ExchState) (sellerId buyerId : UserId) (ticker : Ticker)
    (price amount : Nat) : Except DomainError ExchState :=
  match lookupVal st.users sellerId, lookupVal st.users buyerId,
      lookupVal st.inventories (sellerId, ticker), lookupVal st.inventories (buyerId, ticker) with
  | some _, some _, some sellerQty, some _ =>
    if sellerQty < amount then
      .error (.InsufficientBalance ticker amount sellerQty)
    else
      let totalCost := amount * price
      .ok { st with
        transactions := st.transactions ++
          [{ user_from_id := sellerId, user_to_id := buyerId,
             instrument_ticker := ticker, amount := amount, price := price }],
        users := adjustVal st.users sellerId (· + totalCost),
        inventories := adjustVal (adjustVal st.inventories (sellerId, ticker) (· - amount))
          (buyerId, ticker) (· + amount) }
  | _, _, _, _ => .error (.NotFound "User or inventory")

/-- The mutation performed by `OrderService._partially_execute_order` once its
guard has passed. -/
def applyFill (o : Order) (amount : Nat) : Order :=
  { o with
    amount := o.amount - amount,
    filled := o.filled + amount,
    status := if o.amount - amount = 0 then .EXECUTED else .PARTIALLY_EXECUTED }

/-- `OrderService._partially_execute_order` (order_service.py lines 331-342). -/
def partiallyExecuteOrder (o : Order) (amount : Nat) : Except DomainError Order :=
  if o.amount < amount then .error (.OrderExecution "Order amount insufficient")
  else .ok (applyFill o amount)

/-- `OrderService._freeze_balance` (order_service.py lines 344-366): debit the
available pool, base cash for the base ticker and the inventory row otherwise;
a missing inventory row raises `NotFound`. -/
def freezeBalance (st : ExchState) (userId : UserId) (ticker : Ticker) (amount : Nat) :
    Except DomainError ExchState :=
  match lookupVal st.users userId with
  | none => .error (.NotFound "User")
  | some bal =>
    if ticker = baseInstrumentTicker then
      if bal < amount then .error (.InsufficientBalance ticker amount bal)
      else .ok { st with users := adjustVal st.users userId (· - amount) }
    else
      match lookupVal st.inventories (userId, ticker) with
      | none => .error (.NotFound "Inventory")
      | some q =>
        if q < amount then .error (.InsufficientBalance ticker amount q)
        else .ok { st with inventories := adjustVal st.inventories (userId, ticker) (· - amount) }

/-- `OrderService._unfreeze_balance` (order_service.py lines 368-385): credit
the available pool back; unlike the freeze, a missing inventory row is
silently skipped (`if inventory:` with no else branch). -/
def unfreezeBalance (st : ExchState) (userId : UserId) (ticker : Ticker) (amount : Nat) :
    Except DomainError ExchState :=
  match lookupVal st.users userId with
  | none => .error (.NotFound "User")
  | some _ =>
    if ticker = baseInstrumentTicker then
      .ok { st with users := adjustVal st.users userId (· + amount) }
    else
      match lookupVal st.inventories (userId, ticker) with
      | none => .ok st
      | some _ => .ok { st with inventories := adjustVal st.inventories (userId, ticker) (· + amount) }

/-- Price sort key used by the `ORDER BY` clause of
`OrderRepository.get_orders`.  Resting orders always carry a price (market
orders never rest), so the default for a missing price is never exercised on
states reachable through the service. -/
def priceKey (o : Order) : Nat := o.price.getD 0

/-- The priority order produced by `ORDER BY desc(price) / asc(price),
created_at` in `OrderRepository.get_orders`: ascending price for ASK,
descending for BID, ties by ascending creation time. -/
def bookLE (direction : DirectionEnum) (a b : Order) : Prop :=
  match direction with
  | .ASK => priceKey a < priceKey b ∨ (priceKey a = priceKey b ∧ a.created_at ≤ b.created_at)
  | .BID => priceKey b < priceKey a ∨ (priceKey a = priceKey b ∧ a.created_at ≤ b.created_at)

instance (d : DirectionEnum) : DecidableRel (bookLE d) := fun a b => by
  unfold bookLE
  cases d <;> exact inferInstance

instance (d : DirectionEnum) : IsTotal Order (bookLE d) where
  total a b := by unfold bookLE; cases d <;> omega

instance (d : DirectionEnum) : IsTrans Order (bookLE d) where
  trans a b c hab hbc := by
    unfold bookLE at hab hbc ⊢
    cases d <;> omega

/-- `OrderRepository.get_orders` (order.py lines 32-68) with the default
status filter: resting orders of one side of one instrument in priority
order, truncated to `limit`. -/
def getOrders (st : ExchState) (ticker : Ticker) (direction : DirectionEnum)
    (limit : Nat) : List Order :=
  (List.insertionSort (bookLE direction)
    (st.orders.filter fun o =>
      o.instrument_ticker == ticker && o.direction == direction &&
        (o.status == OrderStatusEnum.NEW || o.status == OrderStatusEnum.PARTIALLY_EXECUTED))).take
    limit

/-- True when the break guard `price and order.price > price` in
`create_limit_buy_order` fires: the resting price is strictly above the
incoming limit. -/
def restingAbove (restingPrice incomingPrice : Option Nat) : Bool :=
  match restingPrice, incomingPrice with
  | some rp, some p => p < rp
  | _, _ => false

/-- True when the break guard `price and order.price < price` in
`create_limit_sell_order` fires: the resting price is strictly below the
incoming limit. -/
def restingBelow (restingPrice incomingPrice : Option Nat) : Bool :=
  match restingPrice, incomingPrice with
  | some rp, some p => rp < p
  | _, _ => false

/-- The matching loop of `create_limit_buy_order` (order_service.py lines
71-80): walk the snapshot of resting ASKs, settling a fill and updating both
orders at each step.  A resting order without a price makes the Python code
raise `TypeError` when it is used (`order.price` in the fill); any exception
is converted to the cancellation path by the surrounding `except` block, so
it is modelled as an error here. -/
def matchBuy (st : ExchState) (book : List Order) (newOrder : Order)
    (buyerId : UserId) (ticker : Ticker) (price : Option Nat) :
    Except DomainError (ExchState × Order) :=
  match book with
  | [] => .ok (st, newOrder)
  | o :: rest =>
    if newOrder.amount = 0 ∨ (truthy price ∧ restingAbove o.price price) then
      .ok (st, newOrder)
    else
      match o.price with
      | none => .error (.OrderExecution "TypeError")
      | some p =>
        let count := min o.amount newOrder.amount
        match executeBuy st o.user_id buyerId ticker p count with
        | .error e => .error e
        | .ok st1 =>
          match partiallyExecuteOrder o count with
          | .error e => .error e
          | .ok o' =>
            match partiallyExecuteOrder newOrder count with
            | .error e => .error e
            | .ok n' =>
              matchBuy { st1 with orders := replaceOrder st1.orders o.id o' } rest n'
                buyerId ticker price

/-- The matching loop of `create_limit_sell_order` (order_service.py lines
137-146): walk the snapshot of resting BIDs.  The incoming user is the
seller of every fill. -/
def matchSell (st : ExchState) (book : List Order) (newOrder : Order)
    (sellerId : UserId) (ticker : Ticker) (price : Option Nat) :
    Except DomainError (ExchState × Order) :=
  match book with
  | [] => .ok (st, newOrder)
  | o :: rest =>
    if newOrder.amount = 0 ∨ (truthy price ∧ restingBelow o.price price) then
      .ok (st, newOrder)
    else
      match o.price with
      | none => .error (.OrderExecution "TypeError")
      | some p =>
        let count := min o.amount newOrder.amount
        match executeSell st sellerId o.user_id ticker p count with
        | .error e => .error e
        | .ok st1 =>
          match partiallyExecuteOrder o count with
          | .error e => .error e
          | .ok o' =>
            match partiallyExecuteOrder newOrder count with
            | .error e => .error e
            | .ok n' =>
              matchSell { st1 with orders := replaceOrder st1.orders o.id o' } rest n'
                sellerId ticker price

/-- Outcome of one of the `create_*_order` service methods.  `ok` is the
normal return (the new order flushed into the session).  `raised` is the
`except Exception` path (order_service.py lines 96-103): the session has been
rolled back to the state at the start of the request, a copy of the order
with `filled = 0, amount = qty, status = CANCELLED` has been flushed, and
`OrderExecutionError(str(e))` is propagating. -/
inductive ServiceResult
  | ok (st : ExchState) (order : Order)
  | raised (st : ExchState) (msg : String)
deriving DecidableEq, Repr

/-- `OrderService.create_limit_buy_order` (order_service.py lines 39-103).
`create_market_buy_order` is the same call with `price = none`. -/
def createLimitBuyOrder (st0 : ExchState) (ticker : Ticker) (qty : Nat)
    (price : Option Nat) (userId : UserId) (oid ts : Nat) : ServiceResult :=
  let newOrder : Order :=
    { id := oid, user_id := userId, instrument_ticker := ticker, amount := qty,
      filled := 0, price := price, direction := .BID, status := .NEW, created_at := ts }
  let res : Except DomainError (ExchState × Order) :=
    match matchBuy st0 (getOrders st0 ticker .ASK qty) newOrder userId ticker price with
    | .error e => .error e
    | .ok (st1, n1) =>
      if n1.status ≠ OrderStatusEnum.EXECUTED then
        if truthy price then
          match freezeBalance st1 userId baseInstrumentTicker (n1.amount * n1.price.getD 0) with
          | .error e => .error e
          | .ok st2 => .ok (st2, n1)
        else .error (.OrderExecution "Not enough orders for market buy")
      else .ok (st1, n1)
  match res with
  | .ok (st, n) => .ok { st with orders := st.orders ++ [n] } n
  | .error e =>
    .raised
      { st0 with orders := st0.orders ++
          [{ newOrder with filled := 0, amount := qty, status := .CANCELLED }] }
      e.message

/-- `OrderService.create_limit_sell_order` (order_service.py lines 105-167).
`create_market_sell_order` is the same call with `price = none`. -/
def createLimitSellOrder (st0 : ExchState) (ticker : Ticker) (qty : Nat)
    (price : Option Nat) (userId : UserId) (oid ts : Nat) : ServiceResult :=
  let newOrder : Order :=
    { id := oid, user_id := userId, instrument_ticker := ticker, amount := qty,
      filled := 0, price := price, direction := .ASK, status := .NEW, created_at := ts }
  let res : Except DomainError (ExchState × Order) :=
    match matchSell st0 (getOrders st0 ticker .BID qty) newOrder userId ticker price with
    | .error e => .error e
    | .ok (st1, n1) =>
      if n1.status ≠ OrderStatusEnum.EXECUTED then
        if truthy price then
          match freezeBalance st1 userId ticker n1.amount with
          | .error e => .error e
          | .ok st2 => .ok (st2, n1)
        else .error (.OrderExecution "Not enough orders for market sell")
      else .ok (st1, n1)
  match res with
  | .ok (st, n) => .ok { st with orders := st.orders ++ [n] } n
  | .error e =>
    .raised
      { st0 with orders := st0.orders ++
          [{ newOrder with filled := 0, amount := qty, status := .CANCELLED }] }
      e.message

/-- `OrderService.cancel_order` (order_service.py lines 201-246). -/
def cancelOrder (st : ExchState) (orderId : Nat) (userId : UserId) :
    Except DomainError ExchState :=
  match findOrder st.orders orderId with
  | none => .error (.NotFound "Order")
  | some o =>
    if o.user_id ≠ userId then
      .error (.OrderExecution "Order does not belong to user")
    else if o.status = OrderStatusEnum.PARTIALLY_EXECUTED ∨
        o.status = OrderStatusEnum.EXECUTED ∨ o.status = OrderStatusEnum.CANCELLED then
      .error (.OrderExecution "Order already executed/partially_executed/cancelled")
    else
      match o.price with
      | none => .error (.OrderExecution "Cannot cancel market order")
      | some p =>
        let step :=
          match o.direction with
          | .ASK => unfreezeBalance st userId o.instrument_ticker o.amount
          | .BID => unfreezeBalance st userId baseInstrumentTicker (o.amount * p)
        match step with
        | .error e => .error e
        | .ok st1 =>
          .ok { st1 with orders := replaceOrder st1.orders orderId { o with status := .CANCELLED } }

/-- Outcome of a request handler: `ok` is a 2xx response together with the
committed state; `err` carries the HTTP status, the `detail` string and the
state that remains committed (request handlers roll back before translating
domain errors, so on the error paths it is the state the request started
from). -/
inductive ApiResult
  | ok (st : ExchState) (orderId : Nat)
  | err (status : Nat) (detail : String) (st : ExchState)
deriving DecidableEq, Repr

/-- `create_order` in `src/app/api/v1/order.py` (lines 97-163): instrument
lookup, dispatch on direction and on Python truthiness of `price` (the market
wrappers call the limit methods with `None`), commit on success, and the
`except OrderExecutionError` path which rolls the session back — discarding
the CANCELLED order the service flushed — and re-raises as HTTP 422.  The
`status == CANCELLED` check after the commit is preserved even though the
service never returns a CANCELLED order. -/
def createOrderApi (st : ExchState) (userId : UserId) (direction : String)
    (ticker : Ticker) (qty : Nat) (price : Option Nat) (oid ts : Nat) : ApiResult :=
  if ticker ∈ st.instruments then
    let svc :=
      if direction = "BUY" then
        if truthy price then createLimitBuyOrder st ticker qty price userId oid ts
        else createLimitBuyOrder st ticker qty none userId oid ts
      else
        if truthy price then createLimitSellOrder st ticker qty price userId oid ts
        else createLimitSellOrder st ticker qty none userId oid ts
    match svc with
    | .ok st' order =>
      if order.status = OrderStatusEnum.CANCELLED then .err 422 "ORDER CANCELLED" st'
      else .ok st' order.id
    | .raised _ msg => .err 422 msg st
  else .err 404 "Instrument not found" st

/-- `cancel_order` in `src/app/api/v1/order.py` (lines 166-196):
`OrderExecutionError` is caught and surfaced as HTTP 400 after a rollback.
Modelled from the spec: other domain errors (only `NotFound` is reachable)
escape the handler and are mapped to their `status_code` by the
application-level exception handler, which is not under `src/`; the session
is closed uncommitted, so the state is unchanged either way. -/
def cancelOrderApi (st : ExchState) (orderId : Nat) (userId : UserId) : ApiResult :=
  match cancelOrder st orderId userId with
  | .ok st' => .ok st' orderId
  | .error (.OrderExecution msg) => .err 400 msg st
  | .error e => .err e.statusCode e.message st

/-- Python-dict assignment `d[k] = v`: replace the value under `k`, or append
a fresh key.  Keys stay unique by construction, matching dict semantics. -/
def dictSet : List (Ticker × Nat) → Ticker → Nat → List (Ticker × Nat)
  | [], k, v => [(k, v)]
  | (k', v') :: rest, k, v =>
    if k' = k then (k, v) :: rest else (k', v') :: dictSet rest k v

/-- `d[k] = d.get(k, 0) + v`, the accumulation used by
`BalanceService.get_user_balance` (for the base ticker the source uses
`+=`, which is the same because the base key is always present). -/
def dictAdd (l : List (Ticker × Nat)) (k : Ticker) (v : Nat) : List (Ticker × Nat) :=
  dictSet l k ((lookupVal l k).getD 0 + v)

/-- One step of the frozen-amount loop of `BalanceService.get_user_balance`
(balance_service.py lines 56-65). -/
def balanceStep (res : List (Ticker × Nat)) (o : Order) : List (Ticker × Nat) :=
  if o.status = OrderStatusEnum.NEW ∨ o.status = OrderStatusEnum.PARTIALLY_EXECUTED then
    match o.direction with
    | .ASK => dictAdd res o.instrument_ticker o.amount
    | .BID =>
      if truthy o.price then dictAdd res baseInstrumentTicker (o.amount * o.price.getD 0)
      else res
  else res

/-- `BalanceService.get_user_balance` (balance_service.py lines 33-67):
start from the user's inventory rows, overwrite the base ticker with the cash
balance, then add back the frozen portion of every open order. -/
def getUserBalance (st : ExchState) (userId : UserId) :
    Except DomainError (List (Ticker × Nat)) :=
  match lookupVal st.users userId with
  | none => .error (.NotFound "User")
  | some bal =>
    let inv := st.inventories.filter fun kv => kv.1.1 == userId
    let base := (inv.map fun kv => (kv.1.2, kv.2)).foldl
      (fun res kv => dictSet res kv.1 kv.2) []
    let withCash := dictSet base baseInstrumentTicker bal
    .ok ((st.orders.filter fun o => o.user_id == userId).foldl balanceStep withCash)

/-- The frozen holdings a single order contributes to ticker `t`, read off
the accumulation loop of `BalanceService.get_user_balance`: an open ASK
freezes `amount` of its own ticker, an open BID with a (truthy) price freezes
`amount * price` of the base ticker, everything else freezes nothing. -/
def frozenOfOrder (o : Order) (t : Ticker) : Nat :=
  if o.status = OrderStatusEnum.NEW ∨ o.status = OrderStatusEnum.PARTIALLY_EXECUTED then
    match o.direction with
    | .ASK => if o.instrument_ticker = t then o.amount else 0
    | .BID =>
      if t = baseInstrumentTicker ∧ truthy o.price then o.amount * o.price.getD 0 else 0
  else 0

/-- Total frozen holdings of ticker `t` across all orders. -/
def frozenTotal (st : ExchState) (t : Ticker) : Nat :=
  (st.orders.map (frozenOfOrder · t)).sum

/-- Total quantity of ticker `t` held across all inventory rows. -/
def invTotal (l : List ((UserId × Ticker) × Nat)) (t : Ticker) : Nat :=
  ((l.filter fun kv => kv.1.2 = t).map Prod.snd).sum

/-- Total available holdings of ticker `t` across all users: cash balances
for the base ticker, inventory quantities otherwise. -/
def availableTotal (st : ExchState) (t : Ticker) : Nat :=
  if t = baseInstrumentTicker then sumVals st.users
  else invTotal st.inventories t

/-- Available plus frozen holdings of ticker `t` summed across all users:
the quantity conserved by submissions (spec property P3). -/
def holdingsTotal (st : ExchState) (t : Ticker) : Nat :=
  availableTotal st t + frozenTotal st t

/-- Well-formedness of the order table: primary keys are unique. -/
def ExchState.WFOrders (st : ExchState) : Prop := (st.orders.map Order.id).Nodup

/-- Residue-to-status consistency for one order (spec core invariant 2: open
orders have a positive residue, executed orders none). -/
def OrderOK (o : Order) : Prop :=
  ((o.status = OrderStatusEnum.NEW ∨ o.status = OrderStatusEnum.PARTIALLY_EXECUTED) →
    0 < o.amount) ∧
  (o.status = OrderStatusEnum.EXECUTED → o.amount = 0)

/-! ### Association-list lemmas -/

theorem lookupVal_adjustVal_self {κ : Type} [DecidableEq κ] (l : List (κ × Nat)) (k : κ)
    (f : Nat → Nat) : lookupVal (adjustVal l k f) k = (lookupVal l k).map f := by
  induction l with
  | nil => rfl
  | cons kv rest ih =>
    obtain ⟨k', v⟩ := kv
    by_cases h : k' = k
    · simp [adjustVal, lookupVal, h]
    · simp [adjustVal, lookupVal, h, ih]

theorem lookupVal_adjustVal_ne {κ : Type} [DecidableEq κ] (l : List (κ × Nat)) {k k' : κ}
    (f : Nat → Nat) (h : k' ≠ k) :
    lookupVal (adjustVal l k f) k' = lookupVal l k' := by
  induction l with
  | nil => rfl
  | cons kv rest ih =>
    obtain ⟨k₀, v⟩ := kv
    by_cases h0 : k₀ = k
    · subst h0
      have hne : k₀ ≠ k' := fun hc => h hc.symm
      simp [adjustVal, lookupVal, hne]
    · simp [adjustVal, lookupVal, h0, ih]

theorem sumVals_adjustVal {κ : Type} [DecidableEq κ] {l : List (κ × Nat)} {k : κ} {v : Nat}
    (f : Nat → Nat) (h : lookupVal l k = some v) :
    sumVals (adjustVal l k f) + v = sumVals l + f v := by
  induction l with
  | nil => simp [lookupVal] at h
  | cons kv rest ih =>
    obtain ⟨k', v'⟩ := kv
    by_cases hk : k' = k
    · simp only [lookupVal, if_pos hk] at h
      obtain rfl : v' = v := by exact Option.some_injective _ h
      simp [adjustVal, hk, sumVals]
      omega
    · simp only [lookupVal, if_neg hk] at h
      have := ih h
      simp [adjustVal, hk, sumVals] at this ⊢
      omega

theorem invTotal_adjustVal_eq {l : List ((UserId × Ticker) × Nat)} {u : UserId} {t : Ticker}
    {v : Nat} (f : Nat → Nat) (h : lookupVal l (u, t) = some v) :
    invTotal (adjustVal l (u, t) f) t + v = invTotal l t + f v := by
  induction l with
  | nil => simp [lookupVal] at h
  | cons kv rest ih =>
    obtain ⟨⟨u', t'⟩, v'⟩ := kv
    by_cases hk : (u', t') = ((u, t) : UserId × Ticker)
    · simp only [lookupVal, if_pos hk] at h
      obtain rfl : v' = v := Option.some_injective _ h
      injection hk with h1 h2
      subst h1
      subst h2
      simp [adjustVal, invTotal]
      omega
    · simp only [lookupVal, if_neg hk] at h
      have hrec := ih h
      simp only [invTotal] at hrec ⊢
      by_cases ht : t' = t
      · subst ht
        have hu : ¬u' = u := fun hc => hk (by rw [hc])
        simp [adjustVal, hu] at hrec ⊢
        omega
      · simp [adjustVal, hk, ht] at hrec ⊢
        omega

theorem invTotal_adjustVal_ne (l : List ((UserId × Ticker) × Nat)) (u : UserId)
    {t0 t : Ticker} (f : Nat → Nat) (h : t0 ≠ t) :
    invTotal (adjustVal l (u, t0) f) t = invTotal l t := by
  induction l with
  | nil => rfl
  | cons kv rest ih =>
    obtain ⟨⟨u', t'⟩, v'⟩ := kv
    by_cases hk : (u', t') = ((u, t0) : UserId × Ticker)
    · injection hk with h1 h2
      subst h1
      subst h2
      simp [adjustVal, invTotal, h]
    · have hrec := ih
      simp only [invTotal] at hrec ⊢
      by_cases ht : t' = t
      · subst ht
        have hcond : ¬(u' = u ∧ t' = t0) := fun hc => h hc.2.symm
        simp [adjustVal, hcond] at hrec ⊢
        omega
      · simp [adjustVal, hk, ht] at hrec ⊢
        omega

/-! ### Order-table lemmas -/

theorem findOrder_mem {l : List Order} {oid : Nat} {o : Order}
    (h : findOrder l oid = some o) : o ∈ l ∧ o.id = oid := by
  induction l with
  | nil => simp [findOrder] at h
  | cons x rest ih =>
    by_cases hx : x.id = oid
    · simp only [findOrder, if_pos hx] at h
      obtain rfl : x = o := Option.some_injective _ h
      exact ⟨List.mem_cons_self .., hx⟩
    · simp only [findOrder, if_neg hx] at h
      obtain ⟨hm, hi⟩ := ih h
      exact ⟨List.mem_cons_of_mem _ hm, hi⟩

theorem findOrder_of_mem_nodup {l : List Order} {o : Order}
    (hn : (l.map Order.id).Nodup) (hm : o ∈ l) : findOrder l o.id = some o := by
  induction l with
  | nil => simp at hm
  | cons x rest ih =>
    rcases List.mem_cons.mp hm with rfl | hm'
    · simp [findOrder]
    · simp only [List.map_cons, List.nodup_cons] at hn
      have hx : x.id ≠ o.id := by
        intro he
        exact hn.1 (he ▸ List.mem_map_of_mem Order.id hm')
      simp only [findOrder, if_neg hx]
      exact ih hn.2 hm'

theorem findOrder_append (l l' : List Order) (oid : Nat) :
    findOrder (l ++ l') oid =
      match findOrder l oid with
      | some o => some o
      | none => findOrder l' oid := by
  induction l with
  | nil => simp [findOrder]
  | cons x rest ih =>
    by_cases hx : x.id = oid
    · simp [findOrder, hx]
    · simpa [findOrder, hx] using ih

theorem findOrder_replaceOrder_self {l : List Order} {oid : Nat} {o o' : Order}
    (h : findOrder l oid = some o) (hid : o'.id = oid) :
    findOrder (replaceOrder l oid o') oid = some o' := by
  induction l with
  | nil => simp [findOrder] at h
  | cons x rest ih =>
    by_cases hx : x.id = oid
    · simp [replaceOrder, hx, findOrder, hid]
    · simp only [findOrder, if_neg hx] at h
      simp [replaceOrder, hx, findOrder, ih h]

theorem findOrder_replaceOrder_ne {l : List Order} {oid oid' : Nat} {o' : Order}
    (hid : o'.id = oid) (hne : oid' ≠ oid) :
    findOrder (replaceOrder l oid o') oid' = findOrder l oid' := by
  induction l with
  | nil => rfl
  | cons x rest ih =>
    by_cases hx : x.id = oid
    · have h1 : ¬o'.id = oid' := by rw [hid]; exact fun hc => hne hc.symm
      have h2 : ¬x.id = oid' := by rw [hx]; exact fun hc => hne hc.symm
      simp only [replaceOrder, if_pos hx, findOrder, if_neg h1, if_neg h2]
    · simp only [replaceOrder, if_neg hx, findOrder, ih]

theorem mem_replaceOrder {l : List Order} {oid : Nat} {o' x : Order}
    (h : x ∈ replaceOrder l oid o') : x ∈ l ∨ x = o' := by
  induction l with
  | nil => simp [replaceOrder] at h
  | cons y rest ih =>
    by_cases hy : y.id = oid
    · simp only [replaceOrder, if_pos hy] at h
      rcases List.mem_cons.mp h with rfl | hm
      · exact Or.inr rfl
      · exact Or.inl (List.mem_cons_of_mem _ hm)
    · simp only [replaceOrder, if_neg hy] at h
      rcases List.mem_cons.mp h with rfl | hm
      · exact Or.inl (List.mem_cons_self ..)
      · rcases ih hm with hm' | he
        · exact Or.inl (List.mem_cons_of_mem _ hm')
        · exact Or.inr he

theorem sumBy_replaceOrder (g : Order → Nat) {l : List Order} {oid : Nat} {o o' : Order}
    (h : findOrder l oid = some o) :
    ((replaceOrder l oid o').map g).sum + g o = (l.map g).sum + g o' := by
  induction l with
  | nil => simp [findOrder] at h
  | cons x rest ih =>
    by_cases hx : x.id = oid
    · simp only [findOrder, if_pos hx] at h
      obtain rfl : x = o := Option.some_injective _ h
      simp [replaceOrder, hx]
      omega
    · simp only [findOrder, if_neg hx] at h
      have := ih h
      simp [replaceOrder, hx] at this ⊢
      omega

/-! ### Book-view lemmas -/

theorem mem_getOrders {st : ExchState} {ticker : Ticker} {d : DirectionEnum} {lim : Nat}
    {o : Order} (h : o ∈ getOrders st ticker d lim) :
    o ∈ st.orders ∧ o.instrument_ticker = ticker ∧ o.direction = d ∧
      (o.status = OrderStatusEnum.NEW ∨ o.status = OrderStatusEnum.PARTIALLY_EXECUTED) := by
  have h1 := (List.take_sublist _ _).mem h
  have h2 := (List.perm_insertionSort (bookLE d) _).mem_iff.mp h1
  have h3 := List.mem_filter.mp h2
  refine ⟨h3.1, ?_⟩
  have := h3.2
  simp only [Bool.and_eq_true, Bool.or_eq_true, beq_iff_eq] at this
  exact ⟨this.1.1, this.1.2, this.2⟩

theorem getOrders_sorted (st : ExchState) (ticker : Ticker) (d : DirectionEnum) (lim : Nat) :
    List.Sorted (bookLE d) (getOrders st ticker d lim) :=
  (List.sorted_insertionSort (bookLE d) _).sublist (List.take_sublist _ _)

theorem getOrders_nodup_ids {st : ExchState} (hw : st.WFOrders)
    (ticker : Ticker) (d : DirectionEnum) (lim : Nat) :
    ((getOrders st ticker d lim).map Order.id).Nodup := by
  have h1 : ((st.orders.filter fun o =>
      o.instrument_ticker == ticker && o.direction == d &&
        (o.status == OrderStatusEnum.NEW ||
          o.status == OrderStatusEnum.PARTIALLY_EXECUTED)).map Order.id).Nodup :=
    ((List.filter_sublist _).map Order.id).nodup hw
  have h2 := ((List.perm_insertionSort (bookLE d)
    (st.orders.filter fun o =>
      o.instrument_ticker == ticker && o.direction == d &&
        (o.status == OrderStatusEnum.NEW ||
          o.status == OrderStatusEnum.PARTIALLY_EXECUTED))).map Order.id).nodup_iff.mpr h1
  exact ((List.take_sublist _ _).map Order.id).nodup h2

/-! ### Settlement-step lemmas -/

theorem executeBuy_ok {st st' : ExchState} {sellerId buyerId : UserId} {ticker : Ticker}
    {price amount : Nat} (h : executeBuy st sellerId buyerId ticker price amount = .ok st') :
    ∃ buyerBal sellerBal buyerQty,
      lookupVal st.users buyerId = some buyerBal ∧
      lookupVal st.users sellerId = some sellerBal ∧
      lookupVal st.inventories (buyerId, ticker) = some buyerQty ∧
      amount * price ≤ buyerBal ∧
      st' = { st with
        transactions := st.transactions ++
          [{ user_from_id := sellerId, user_to_id := buyerId,
             instrument_ticker := ticker, amount := amount, price := price }],
        users := adjustVal (adjustVal st.users sellerId (· + amount * price)) buyerId
          (· - amount * price),
        inventories := adjustVal st.inventories (buyerId, ticker) (· + amount) } := by
  unfold executeBuy at h
  split at h
  case _ buyerBal sellerBal buyerQty hb hs hq =>
    dsimp only at h
    split at h
    · exact absurd h (by simp)
    · refine ⟨buyerBal, sellerBal, buyerQty, hb, hs, hq, by omega, ?_⟩
      simpa using (Option.some_injective _ (by simpa using h)).symm
  case _ => exact absurd h (by simp)

theorem executeSell_ok {st st' : ExchState} {sellerId buyerId : UserId} {ticker : Ticker}
    {price amount : Nat} (h : executeSell st sellerId buyerId ticker price amount = .ok st') :
    ∃ sellerBal buyerBal sellerQty buyerQty,
      lookupVal st.users sellerId = some sellerBal ∧
      lookupVal st.users buyerId = some buyerBal ∧
      lookupVal st.inventories (sellerId, ticker) = some sellerQty ∧
      lookupVal st.inventories (buyerId, ticker) = some buyerQty ∧
      amount ≤ sellerQty ∧
      st' = { st with
        transactions := st.transactions ++
          [{ user_from_id := sellerId, user_to_id := buyerId,
             instrument_ticker := ticker, amount := amount, price := price }],
        users := adjustVal st.users sellerId (· + amount * price),
        inventories := adjustVal (adjustVal st.inventories (sellerId, ticker) (· - amount))
          (buyerId, ticker) (· + amount) } := by
  unfold executeSell at h
  split at h
  case _ sellerBal buyerBal sellerQty buyerQty hs hb hsq hbq =>
    dsimp only at h
    split at h
    · exact absurd h (by simp)
    · refine ⟨sellerBal, buyerBal, sellerQty, buyerQty, hs, hb, hsq, hbq, by omega, ?_⟩
      simpa using (Option.some_injective _ (by simpa using h)).symm
  case _ => exact absurd h (by simp)

theorem partiallyExecuteOrder_ok {o : Order} {c : Nat} {o' : Order}
    (h : partiallyExecuteOrder o c = .ok o') : c ≤ o.amount ∧ o' = applyFill o c := by
  unfold partiallyExecuteOrder at h
  split at h
  · exact absurd h (by simp)
  · exact ⟨by omega, (Option.some_injective _ (by simpa using h)).symm⟩

theorem applyFill_id (o : Order) (c : Nat) : (applyFill o c).id = o.id := rfl

theorem OrderOK_applyFill (o : Order) (c : Nat) : OrderOK (applyFill o c) := by
  unfold OrderOK applyFill
  by_cases h : o.amount - c = 0 <;> simp [h]
  omega

theorem frozenOfOrder_executed {o : Order} (h : o.status = OrderStatusEnum.EXECUTED)
    (t : Ticker) : frozenOfOrder o t = 0 := by
  simp [frozenOfOrder, h]

theorem frozenOfOrder_cancelled {o : Order} (h : o.status = OrderStatusEnum.CANCELLED)
    (t : Ticker) : frozenOfOrder o t = 0 := by
  simp [frozenOfOrder, h]

theorem frozenOfOrder_resting_ask {o : Order}
    (hs : o.status = OrderStatusEnum.NEW ∨ o.status = OrderStatusEnum.PARTIALLY_EXECUTED)
    (hd : o.direction = DirectionEnum.ASK) (t : Ticker) :
    frozenOfOrder o t = if o.instrument_ticker = t then o.amount else 0 := by
  simp [frozenOfOrder, hs, hd]

theorem frozenOfOrder_resting_bid_base {o : Order}
    (hs : o.status = OrderStatusEnum.NEW ∨ o.status = OrderStatusEnum.PARTIALLY_EXECUTED)
    (hd : o.direction = DirectionEnum.BID) {p : Nat} (hp : o.price = some p) :
    frozenOfOrder o baseInstrumentTicker = o.amount * p := by
  by_cases h0 : p = 0
  · subst h0
    simp [frozenOfOrder, hs, hd, hp, truthy]
  · simp [frozenOfOrder, hs, hd, hp, truthy, h0]

theorem frozenOfOrder_bid_nonbase {o : Order} (hd : o.direction = DirectionEnum.BID)
    {t : Ticker} (ht : t ≠ baseInstrumentTicker) : frozenOfOrder o t = 0 := by
  unfold frozenOfOrder
  split
  · simp [hd, ht]
  · rfl

theorem frozenOfOrder_applyFill_ask {o : Order} (hd : o.direction = DirectionEnum.ASK)
    (c : Nat) (t : Ticker) :
    frozenOfOrder (applyFill o c) t = if o.instrument_ticker = t then o.amount - c else 0 := by
  unfold applyFill frozenOfOrder
  by_cases h : o.amount - c = 0 <;> simp [h, hd]

theorem frozenOfOrder_applyFill_bid {o : Order} (hd : o.direction = DirectionEnum.BID)
    (c : Nat) (t : Ticker) :
    frozenOfOrder (applyFill o c) t =
      if t = baseInstrumentTicker ∧ truthy o.price then (o.amount - c) * o.price.getD 0
      else 0 := by
  unfold applyFill frozenOfOrder
  by_cases h : o.amount - c = 0 <;> simp [h, hd]

/-! ### Freeze and unfreeze lemmas -/

theorem freezeBalance_base_ok {st st' : ExchState} {uid : UserId} {amt : Nat}
    (h : freezeBalance st uid baseInstrumentTicker amt = .ok st') :
    ∃ bal, lookupVal st.users uid = some bal ∧ amt ≤ bal ∧
      st' = { st with users := adjustVal st.users uid (· - amt) } := by
  unfold freezeBalance at h
  split at h
  · exact absurd h (by simp)
  case _ bal hb =>
    rw [if_pos rfl] at h
    split at h
    · exact absurd h (by simp)
    · exact ⟨bal, hb, by omega, (Option.some_injective _ (by simpa using h)).symm⟩

theorem freezeBalance_nonbase_ok {st st' : ExchState} {uid : UserId} {tk : Ticker} {amt : Nat}
    (htk : tk ≠ baseInstrumentTicker)
    (h : freezeBalance st uid tk amt = .ok st') :
    ∃ bal q, lookupVal st.users uid = some bal ∧
      lookupVal st.inventories (uid, tk) = some q ∧ amt ≤ q ∧
      st' = { st with inventories := adjustVal st.inventories (uid, tk) (· - amt) } := by
  unfold freezeBalance at h
  split at h
  · exact absurd h (by simp)
  case _ bal hb =>
    rw [if_neg htk] at h
    split at h
    · exact absurd h (by simp)
    case _ q hq =>
      split at h
      · exact absurd h (by simp)
      · exact ⟨bal, q, hb, hq, by omega, (Option.some_injective _ (by simpa using h)).symm⟩

theorem freezeBalance_nonbase_missing {st : ExchState} {uid : UserId} {tk : Ticker}
    {amt bal : Nat} (htk : tk ≠ baseInstrumentTicker)
    (hb : lookupVal st.users uid = some bal)
    (hq : lookupVal st.inventories (uid, tk) = none) :
    freezeBalance st uid tk amt = .error (.NotFound "Inventory") := by
  simp [freezeBalance, hb, htk, hq]

theorem unfreezeBalance_base_ok {st st' : ExchState} {uid : UserId} {amt : Nat}
    (h : unfreezeBalance st uid baseInstrumentTicker amt = .ok st') :
    ∃ bal, lookupVal st.users uid = some bal ∧
      st' = { st with users := adjustVal st.users uid (· + amt) } := by
  unfold unfreezeBalance at h
  split at h
  · exact absurd h (by simp)
  case _ bal hb =>
    rw [if_pos rfl] at h
    exact ⟨bal, hb, (Option.some_injective _ (by simpa using h)).symm⟩

theorem unfreezeBalance_nonbase_ok {st st' : ExchState} {uid : UserId} {tk : Ticker}
    {amt : Nat} (htk : tk ≠ baseInstrumentTicker)
    (h : unfreezeBalance st uid tk amt = .ok st') :
    ∃ bal, lookupVal st.users uid = some bal ∧
      ((lookupVal st.inventories (uid, tk) = none ∧ st' = st) ∨
        (∃ q, lookupVal st.inventories (uid, tk) = some q ∧
          st' = { st with inventories := adjustVal st.inventories (uid, tk) (· + amt) })) := by
  unfold unfreezeBalance at h
  split at h
  · exact absurd h (by simp)
  case _ bal hb =>
    rw [if_neg htk] at h
    split at h
    case _ hq =>
      exact ⟨bal, hb, Or.inl ⟨hq, (Option.some_injective _ (by simpa using h)).symm⟩⟩
    case _ q hq =>
      exact ⟨bal, hb, Or.inr ⟨q, hq, (Option.some_injective _ (by simpa using h)).symm⟩⟩

theorem applyFill_status_cases (o : Order) (c : Nat) :
    ((applyFill o c).status = OrderStatusEnum.EXECUTED ∧ (applyFill o c).amount = 0) ∨
      ((applyFill o c).status = OrderStatusEnum.PARTIALLY_EXECUTED ∧
        0 < (applyFill o c).amount) := by
  unfold applyFill
  by_cases h : o.amount - c = 0 <;> simp [h]
  omega

/-! ### The matching loop: structural facts -/

theorem matchBuy_ok {book : List Order} :
    ∀ {st st' : ExchState} {n n' : Order} {buyerId : UserId} {ticker : Ticker}
      {price : Option Nat},
    (∀ o ∈ book, findOrder st.orders o.id = some o) →
    (book.map Order.id).Nodup →
    matchBuy st book n buyerId ticker price = .ok (st', n') →
    st'.instruments = st.instruments ∧
    n'.id = n.id ∧ n'.user_id = n.user_id ∧ n'.instrument_ticker = n.instrument_ticker ∧
    n'.price = n.price ∧ n'.direction = n.direction ∧ n'.created_at = n.created_at ∧
    n'.amount + n'.filled = n.amount + n.filled ∧
    (n' = n ∨ (n'.status = OrderStatusEnum.EXECUTED ∧ n'.amount = 0) ∨
      (n'.status = OrderStatusEnum.PARTIALLY_EXECUTED ∧ 0 < n'.amount)) ∧
    (∃ txs, st'.transactions = st.transactions ++ txs ∧
      ∀ tx ∈ txs, ∃ o ∈ book, o.price = some tx.price ∧ o.user_id = tx.user_from_id ∧
        tx.user_to_id = buyerId ∧ tx.instrument_ticker = ticker) ∧
    (∀ oid, findOrder st'.orders oid = findOrder st.orders oid ∨
      ∃ o1 o2, findOrder st.orders oid = some o1 ∧ findOrder st'.orders oid = some o2 ∧
        o2.amount + o2.filled = o1.amount + o1.filled ∧ OrderOK o2) ∧
    (∀ x ∈ st'.orders, x ∈ st.orders ∨ OrderOK x) := by
  induction book with
  | nil =>
    intro st st' n n' buyerId ticker price _ _ h
    simp only [matchBuy, Except.ok.injEq, Prod.mk.injEq] at h
    obtain ⟨rfl, rfl⟩ := h
    exact ⟨rfl, rfl, rfl, rfl, rfl, rfl, rfl, rfl, Or.inl rfl, ⟨[], by simp, by simp⟩,
      fun oid => Or.inl rfl, fun x hx => Or.inl hx⟩
  | cons o rest ih =>
    intro st st' n n' buyerId ticker price hfind hnodup h
    simp only [matchBuy] at h
    split at h
    · simp only [Except.ok.injEq, Prod.mk.injEq] at h
      obtain ⟨rfl, rfl⟩ := h
      exact ⟨rfl, rfl, rfl, rfl, rfl, rfl, rfl, rfl, Or.inl rfl, ⟨[], by simp, by simp⟩,
        fun oid => Or.inl rfl, fun x hx => Or.inl hx⟩
    · split at h
      · simp at h
      next p hp =>
        split at h
        next e hexec => simp at h
        next st1 hexec =>
          split at h
          next e hpart => simp at h
          next o' hpart =>
            split at h
            next e hpartn => simp at h
            next n2 hpartn =>
              obtain ⟨hc_le_o, rfl⟩ := partiallyExecuteOrder_ok hpart
              obtain ⟨hc_le_n, rfl⟩ := partiallyExecuteOrder_ok hpartn
              obtain ⟨bb, sb, bq, hbb, hsb, hbq, hcost, rfl⟩ := executeBuy_ok hexec
              set c := min o.amount n.amount with hc
              have hoid : o.id ∉ rest.map Order.id := by
                simp only [List.map_cons, List.nodup_cons] at hnodup
                exact hnodup.1
              have hnodup' : (rest.map Order.id).Nodup := by
                simp only [List.map_cons, List.nodup_cons] at hnodup
                exact hnodup.2
              have hfind' : ∀ b ∈ rest,
                  findOrder (replaceOrder st.orders o.id (applyFill o c)) b.id = some b := by
                intro b hb
                have hbne : b.id ≠ o.id := by
                  intro he
                  exact hoid (he ▸ List.mem_map_of_mem Order.id hb)
                rw [findOrder_replaceOrder_ne (applyFill_id o c) hbne]
                exact hfind b (List.mem_cons_of_mem _ hb)
              have hstep := ih hfind' hnodup' h
              obtain ⟨hinst, hid, huid, htick, hpr, hdir, hcr, hsum, hstat, htxs, hevol, hmem⟩ :=
                hstep
              have hfo : findOrder st.orders o.id = some o := hfind o (List.mem_cons_self ..)
              refine ⟨hinst, by simpa [applyFill] using hid, by simpa [applyFill] using huid,
                by simpa [applyFill] using htick, by simpa [applyFill] using hpr,
                by simpa [applyFill] using hdir, by simpa [applyFill] using hcr,
                ?_, ?_, ?_, ?_, ?_⟩
              · have : (applyFill n c).amount + (applyFill n c).filled =
                    n.amount + n.filled := by
                  simp [applyFill]
                  omega
                omega
              · rcases hstat with rfl | hs
                · exact Or.inr (applyFill_status_cases n c)
                · exact Or.inr hs
              · obtain ⟨txs2, htx2, htx2mem⟩ := htxs
                refine ⟨Transaction.mk o.user_id buyerId ticker c p :: txs2, ?_, ?_⟩
                · simpa using htx2
                · intro tx htx
                  rcases List.mem_cons.mp htx with rfl | htx'
                  · exact ⟨o, List.mem_cons_self .., hp, rfl, rfl, rfl⟩
                  · obtain ⟨ob, hob, hrest⟩ := htx2mem tx htx'
                    exact ⟨ob, List.mem_cons_of_mem _ hob, hrest⟩
              · intro oid
                by_cases hoe : oid = o.id
                · have hf2 : findOrder (replaceOrder st.orders o.id (applyFill o c)) oid =
                      some (applyFill o c) := by
                    rw [hoe]
                    exact findOrder_replaceOrder_self hfo (applyFill_id o c)
                  have hfo' : findOrder st.orders oid = some o := by rw [hoe]; exact hfo
                  have hsums : (applyFill o c).amount + (applyFill o c).filled =
                      o.amount + o.filled := by
                    simp [applyFill]
                    omega
                  rcases hevol oid with heq | ⟨o1, o2, h1, h2, h3, h4⟩
                  · refine Or.inr ⟨o, applyFill o c, hfo', ?_, hsums, OrderOK_applyFill o c⟩
                    rw [heq]
                    exact hf2
                  · have : o1 = applyFill o c := by
                      rw [hf2] at h1
                      exact (Option.some_injective _ h1).symm
                    subst this
                    exact Or.inr ⟨o, o2, hfo', h2, by omega, h4⟩
                · have hne2 : findOrder (replaceOrder st.orders o.id (applyFill o c)) oid =
                      findOrder st.orders oid :=
                    findOrder_replaceOrder_ne (applyFill_id o c) hoe
                  rcases hevol oid with heq | ⟨o1, o2, h1, h2, h3, h4⟩
                  · exact Or.inl (by rw [heq, hne2])
                  · exact Or.inr ⟨o1, o2, by rw [← hne2]; exact h1, h2, h3, h4⟩
              · intro x hx
                rcases hmem x hx with hx2 | hok
                · rcases mem_replaceOrder hx2 with hx3 | rfl
                  · exact Or.inl hx3
                  · exact Or.inr (OrderOK_applyFill o c)
                · exact Or.inr hok

/-! ### The matching loop: conservation -/

theorem matchBuy_conserves {book : List Order} :
    ∀ {st st' : ExchState} {n n' : Order} {buyerId : UserId} {ticker : Ticker}
      {price : Option Nat},
    (∀ o ∈ book, findOrder st.orders o.id = some o) →
    (book.map Order.id).Nodup →
    (∀ o ∈ book, o.direction = DirectionEnum.ASK ∧ o.instrument_ticker = ticker ∧
      (o.status = OrderStatusEnum.NEW ∨ o.status = OrderStatusEnum.PARTIALLY_EXECUTED)) →
    ticker ≠ baseInstrumentTicker →
    matchBuy st book n buyerId ticker price = .ok (st', n') →
    ∀ t, holdingsTotal st' t = holdingsTotal st t := by
  induction book with
  | nil =>
    intro st st' n n' buyerId ticker price _ _ _ _ h t
    simp only [matchBuy, Except.ok.injEq, Prod.mk.injEq] at h
    rw [← h.1]
  | cons o rest ih =>
    intro st st' n n' buyerId ticker price hfind hnodup hbook hbase h
    simp only [matchBuy] at h
    split at h
    · simp only [Except.ok.injEq, Prod.mk.injEq] at h
      rw [← h.1]
      exact fun t => rfl
    · split at h
      · simp at h
      next p hp =>
        split at h
        next e hexec => simp at h
        next st1 hexec =>
          split at h
          next e hpart => simp at h
          next o' hpart =>
            split at h
            next e hpartn => simp at h
            next n2 hpartn =>
              obtain ⟨hc_le_o, rfl⟩ := partiallyExecuteOrder_ok hpart
              obtain ⟨hc_le_n, rfl⟩ := partiallyExecuteOrder_ok hpartn
              obtain ⟨bb, sb, bq, hbb, hsb, hbq, hcost, rfl⟩ := executeBuy_ok hexec
              set c := min o.amount n.amount with hc
              obtain ⟨hdir, htick, hstat⟩ := hbook o (List.mem_cons_self ..)
              have hoid : o.id ∉ rest.map Order.id := by
                simp only [List.map_cons, List.nodup_cons] at hnodup
                exact hnodup.1
              have hnodup' : (rest.map Order.id).Nodup := by
                simp only [List.map_cons, List.nodup_cons] at hnodup
                exact hnodup.2
              have hfind' : ∀ b ∈ rest,
                  findOrder (replaceOrder st.orders o.id (applyFill o c)) b.id = some b := by
                intro b hb
                have hbne : b.id ≠ o.id := by
                  intro he
                  exact hoid (he ▸ List.mem_map_of_mem Order.id hb)
                rw [findOrder_replaceOrder_ne (applyFill_id o c) hbne]
                exact hfind b (List.mem_cons_of_mem _ hb)
              have hbook' : ∀ b ∈ rest, b.direction = DirectionEnum.ASK ∧
                  b.instrument_ticker = ticker ∧
                  (b.status = OrderStatusEnum.NEW ∨
                    b.status = OrderStatusEnum.PARTIALLY_EXECUTED) :=
                fun b hb => hbook b (List.mem_cons_of_mem _ hb)
              have hstep := ih hfind' hnodup' hbook' hbase h
              intro t
              rw [hstep t]
              have hfo : findOrder st.orders o.id = some o := hfind o (List.mem_cons_self ..)
              have hfroz := @sumBy_replaceOrder (frozenOfOrder · t) st.orders o.id o (applyFill o c) hfo
              have husers : sumVals (adjustVal (adjustVal st.users o.user_id (· + c * p))
                  buyerId (· - c * p)) = sumVals st.users := by
                have h1 := sumVals_adjustVal (· + c * p) hsb
                by_cases hbs : buyerId = o.user_id
                · have hl : lookupVal (adjustVal st.users o.user_id (· + c * p)) buyerId =
                      some (sb + c * p) := by
                    rw [hbs, lookupVal_adjustVal_self, hsb]
                    rfl
                  have h2 := sumVals_adjustVal (· - c * p) hl
                  simp only at h1 h2
                  omega
                · have hl : lookupVal (adjustVal st.users o.user_id (· + c * p)) buyerId =
                      some bb := by
                    rw [lookupVal_adjustVal_ne _ _ hbs]
                    exact hbb
                  have h2 := sumVals_adjustVal (· - c * p) hl
                  simp only at h1 h2
                  omega
              by_cases ht : t = baseInstrumentTicker
              · subst ht
                have hzo : frozenOfOrder o baseInstrumentTicker = 0 := by
                  rw [frozenOfOrder_resting_ask hstat hdir, if_neg]
                  rw [htick]
                  exact hbase
                have hzo' : frozenOfOrder (applyFill o c) baseInstrumentTicker = 0 := by
                  rw [frozenOfOrder_applyFill_ask hdir, if_neg]
                  rw [htick]
                  exact hbase
                simp only [holdingsTotal, availableTotal, frozenTotal, eq_self_iff_true,
                  if_true]
                simp only [hzo, hzo'] at hfroz
                omega
              · by_cases htt : t = ticker
                · subst htt
                  have hinv := invTotal_adjustVal_eq (· + c) hbq
                  have hzo : frozenOfOrder o t = o.amount := by
                    rw [frozenOfOrder_resting_ask hstat hdir, if_pos htick]
                  have hzo' : frozenOfOrder (applyFill o c) t = o.amount - c := by
                    rw [frozenOfOrder_applyFill_ask hdir, if_pos htick]
                  simp only [holdingsTotal, availableTotal, if_neg ht, frozenTotal]
                  simp only [hzo, hzo'] at hfroz
                  simp only at hinv
                  omega
                · have hinv := invTotal_adjustVal_ne st.inventories buyerId (· + c)
                    fun hc => htt hc.symm
                  have hzo : frozenOfOrder o t = 0 := by
                    rw [frozenOfOrder_resting_ask hstat hdir, if_neg]
                    rw [htick]
                    exact fun hc => htt hc.symm
                  have hzo' : frozenOfOrder (applyFill o c) t = 0 := by
                    rw [frozenOfOrder_applyFill_ask hdir, if_neg]
                    rw [htick]
                    exact fun hc => htt hc.symm
                  simp only [holdingsTotal, availableTotal, if_neg ht, frozenTotal]
                  simp only [hzo, hzo'] at hfroz
                  simp only at hinv
                  omega

theorem frozenOfOrder_applyFill_bid_base {o : Order} (hd : o.direction = DirectionEnum.BID)
    {p : Nat} (hp : o.price = some p) (c : Nat) :
    frozenOfOrder (applyFill o c) baseInstrumentTicker = (o.amount - c) * p := by
  rw [frozenOfOrder_applyFill_bid hd]
  by_cases h0 : p = 0
  · subst h0
    simp [truthy, hp]
  · simp [truthy, hp, h0]

theorem matchSell_ok {book : List Order} :
    ∀ {st st' : ExchState} {n n' : Order} {sellerId : UserId} {ticker : Ticker}
      {price : Option Nat},
    (∀ o ∈ book, findOrder st.orders o.id = some o) →
    (book.map Order.id).Nodup →
    matchSell st book n sellerId ticker price = .ok (st', n') →
    st'.instruments = st.instruments ∧
    n'.id = n.id ∧ n'.user_id = n.user_id ∧ n'.instrument_ticker = n.instrument_ticker ∧
    n'.price = n.price ∧ n'.direction = n.direction ∧ n'.created_at = n.created_at ∧
    n'.amount + n'.filled = n.amount + n.filled ∧
    (n' = n ∨ (n'.status = OrderStatusEnum.EXECUTED ∧ n'.amount = 0) ∨
      (n'.status = OrderStatusEnum.PARTIALLY_EXECUTED ∧ 0 < n'.amount)) ∧
    (∃ txs, st'.transactions = st.transactions ++ txs ∧
      ∀ tx ∈ txs, ∃ o ∈ book, o.price = some tx.price ∧ o.user_id = tx.user_to_id ∧
        tx.user_from_id = sellerId ∧ tx.instrument_ticker = ticker) ∧
    (∀ oid, findOrder st'.orders oid = findOrder st.orders oid ∨
      ∃ o1 o2, findOrder st.orders oid = some o1 ∧ findOrder st'.orders oid = some o2 ∧
        o2.amount + o2.filled = o1.amount + o1.filled ∧ OrderOK o2) ∧
    (∀ x ∈ st'.orders, x ∈ st.orders ∨ OrderOK x) := by
  induction book with
  | nil =>
    intro st st' n n' sellerId ticker price _ _ h
    simp only [matchSell, Except.ok.injEq, Prod.mk.injEq] at h
    obtain ⟨rfl, rfl⟩ := h
    exact ⟨rfl, rfl, rfl, rfl, rfl, rfl, rfl, rfl, Or.inl rfl, ⟨[], by simp, by simp⟩,
      fun oid => Or.inl rfl, fun x hx => Or.inl hx⟩
  | cons o rest ih =>
    intro st st' n n' sellerId ticker price hfind hnodup h
    simp only [matchSell] at h
    split at h
    · simp only [Except.ok.injEq, Prod.mk.injEq] at h
      obtain ⟨rfl, rfl⟩ := h
      exact ⟨rfl, rfl, rfl, rfl, rfl, rfl, rfl, rfl, Or.inl rfl, ⟨[], by simp, by simp⟩,
        fun oid => Or.inl rfl, fun x hx => Or.inl hx⟩
    · split at h
      · simp at h
      next p hp =>
        split at h
        next e hexec => simp at h
        next st1 hexec =>
          split at h
          next e hpart => simp at h
          next o' hpart =>
            split at h
            next e hpartn => simp at h
            next n2 hpartn =>
              obtain ⟨hc_le_o, rfl⟩ := partiallyExecuteOrder_ok hpart
              obtain ⟨hc_le_n, rfl⟩ := partiallyExecuteOrder_ok hpartn
              obtain ⟨sb, bb, sq, bq, hsb, hbb, hsq, hbq, hcnt, rfl⟩ := executeSell_ok hexec
              set c := min o.amount n.amount with hc
              have hoid : o.id ∉ rest.map Order.id := by
                simp only [List.map_cons, List.nodup_cons] at hnodup
                exact hnodup.1
              have hnodup' : (rest.map Order.id).Nodup := by
                simp only [List.map_cons, List.nodup_cons] at hnodup
                exact hnodup.2
              have hfind' : ∀ b ∈ rest,
                  findOrder (replaceOrder st.orders o.id (applyFill o c)) b.id = some b := by
                intro b hb
                have hbne : b.id ≠ o.id := by
                  intro he
                  exact hoid (he ▸ List.mem_map_of_mem Order.id hb)
                rw [findOrder_replaceOrder_ne (applyFill_id o c) hbne]
                exact hfind b (List.mem_cons_of_mem _ hb)
              have hstep := ih hfind' hnodup' h
              obtain ⟨hinst, hid, huid, htick, hpr, hdir, hcr, hsum, hstat, htxs, hevol, hmem⟩ :=
                hstep
              have hfo : findOrder st.orders o.id = some o := hfind o (List.mem_cons_self ..)
              refine ⟨hinst, by simpa [applyFill] using hid, by simpa [applyFill] using huid,
                by simpa [applyFill] using htick, by simpa [applyFill] using hpr,
                by simpa [applyFill] using hdir, by simpa [applyFill] using hcr,
                ?_, ?_, ?_, ?_, ?_⟩
              · have : (applyFill n c).amount + (applyFill n c).filled =
                    n.amount + n.filled := by
                  simp [applyFill]
                  omega
                omega
              · rcases hstat with rfl | hs
                · exact Or.inr (applyFill_status_cases n c)
                · exact Or.inr hs
              · obtain ⟨txs2, htx2, htx2mem⟩ := htxs
                refine ⟨Transaction.mk sellerId o.user_id ticker c p :: txs2, ?_, ?_⟩
                · simpa using htx2
                · intro tx htx
                  rcases List.mem_cons.mp htx with rfl | htx'
                  · exact ⟨o, List.mem_cons_self .., hp, rfl, rfl, rfl⟩
                  · obtain ⟨ob, hob, hrest⟩ := htx2mem tx htx'
                    exact ⟨ob, List.mem_cons_of_mem _ hob, hrest⟩
              · intro oid
                by_cases hoe : oid = o.id
                · have hf2 : findOrder (replaceOrder st.orders o.id (applyFill o c)) oid =
                      some (applyFill o c) := by
                    rw [hoe]
                    exact findOrder_replaceOrder_self hfo (applyFill_id o c)
                  have hfo' : findOrder st.orders oid = some o := by rw [hoe]; exact hfo
                  have hsums : (applyFill o c).amount + (applyFill o c).filled =
                      o.amount + o.filled := by
                    simp [applyFill]
                    omega
                  rcases hevol oid with heq | ⟨o1, o2, h1, h2, h3, h4⟩
                  · refine Or.inr ⟨o, applyFill o c, hfo', ?_, hsums, OrderOK_applyFill o c⟩
                    rw [heq]
                    exact hf2
                  · have : o1 = applyFill o c := by
                      rw [hf2] at h1
                      exact (Option.some_injective _ h1).symm
                    subst this
                    exact Or.inr ⟨o, o2, hfo', h2, by omega, h4⟩
                · have hne2 : findOrder (replaceOrder st.orders o.id (applyFill o c)) oid =
                      findOrder st.orders oid :=
                    findOrder_replaceOrder_ne (applyFill_id o c) hoe
                  rcases hevol oid with heq | ⟨o1, o2, h1, h2, h3, h4⟩
                  · exact Or.inl (by rw [heq, hne2])
                  · exact Or.inr ⟨o1, o2, by rw [← hne2]; exact h1, h2, h3, h4⟩
              · intro x hx
                rcases hmem x hx with hx2 | hok
                · rcases mem_replaceOrder hx2 with hx3 | rfl
                  · exact Or.inl hx3
                  · exact Or.inr (OrderOK_applyFill o c)
                · exact Or.inr hok

theorem matchSell_conserves {book : List Order} :
    ∀ {st st' : ExchState} {n n' : Order} {sellerId : UserId} {ticker : Ticker}
      {price : Option Nat},
    (∀ o ∈ book, findOrder st.orders o.id = some o) →
    (book.map Order.id).Nodup →
    (∀ o ∈ book, o.direction = DirectionEnum.BID ∧ o.instrument_ticker = ticker ∧
      (o.status = OrderStatusEnum.NEW ∨ o.status = OrderStatusEnum.PARTIALLY_EXECUTED)) →
    ticker ≠ baseInstrumentTicker →
    matchSell st book n sellerId ticker price = .ok (st', n') →
    ∀ t, holdingsTotal st' t = holdingsTotal st t := by
  induction book with
  | nil =>
    intro st st' n n' sellerId ticker price _ _ _ _ h t
    simp only [matchSell, Except.ok.injEq, Prod.mk.injEq] at h
    rw [← h.1]
  | cons o rest ih =>
    intro st st' n n' sellerId ticker price hfind hnodup hbook hbase h
    simp only [matchSell] at h
    split at h
    · simp only [Except.ok.injEq, Prod.mk.injEq] at h
      rw [← h.1]
      exact fun t => rfl
    · split at h
      · simp at h
      next p hp =>
        split at h
        next e hexec => simp at h
        next st1 hexec =>
          split at h
          next e hpart => simp at h
          next o' hpart =>
            split at h
            next e hpartn => simp at h
            next n2 hpartn =>
              obtain ⟨hc_le_o, rfl⟩ := partiallyExecuteOrder_ok hpart
              obtain ⟨hc_le_n, rfl⟩ := partiallyExecuteOrder_ok hpartn
              obtain ⟨sb, bb, sq, bq, hsb, hbb, hsq, hbq, hcnt, rfl⟩ := executeSell_ok hexec
              set c := min o.amount n.amount with hc
              obtain ⟨hdir, htick, hstat⟩ := hbook o (List.mem_cons_self ..)
              have hoid : o.id ∉ rest.map Order.id := by
                simp only [List.map_cons, List.nodup_cons] at hnodup
                exact hnodup.1
              have hnodup' : (rest.map Order.id).Nodup := by
                simp only [List.map_cons, List.nodup_cons] at hnodup
                exact hnodup.2
              have hfind' : ∀ b ∈ rest,
                  findOrder (replaceOrder st.orders o.id (applyFill o c)) b.id = some b := by
                intro b hb
                have hbne : b.id ≠ o.id := by
                  intro he
                  exact hoid (he ▸ List.mem_map_of_mem Order.id hb)
                rw [findOrder_replaceOrder_ne (applyFill_id o c) hbne]
                exact hfind b (List.mem_cons_of_mem _ hb)
              have hbook' : ∀ b ∈ rest, b.direction = DirectionEnum.BID ∧
                  b.instrument_ticker = ticker ∧
                  (b.status = OrderStatusEnum.NEW ∨
                    b.status = OrderStatusEnum.PARTIALLY_EXECUTED) :=
                fun b hb => hbook b (List.mem_cons_of_mem _ hb)
              have hstep := ih hfind' hnodup' hbook' hbase h
              intro t
              rw [hstep t]
              have hfo : findOrder st.orders o.id = some o := hfind o (List.mem_cons_self ..)
              have hfroz := @sumBy_replaceOrder (frozenOfOrder · t) st.orders o.id o (applyFill o c) hfo
              have husers := sumVals_adjustVal (· + c * p) hsb
              have hinvt : invTotal (adjustVal (adjustVal st.inventories (sellerId, ticker)
                  (· - c)) (o.user_id, ticker) (· + c)) ticker = invTotal st.inventories ticker := by
                have h1 := invTotal_adjustVal_eq (· - c) hsq
                by_cases hbs : o.user_id = sellerId
                · have hl : lookupVal (adjustVal st.inventories (sellerId, ticker) (· - c))
                      (o.user_id, ticker) = some (sq - c) := by
                    rw [hbs, lookupVal_adjustVal_self, hsq]
                    rfl
                  have h2 := invTotal_adjustVal_eq (· + c) hl
                  simp only at h1 h2
                  omega
                · have hl : lookupVal (adjustVal st.inventories (sellerId, ticker) (· - c))
                      (o.user_id, ticker) = some bq := by
                    rw [lookupVal_adjustVal_ne _ _ (by
                      intro hcq
                      exact hbs (congrArg Prod.fst hcq))]
                    exact hbq
                  have h2 := invTotal_adjustVal_eq (· + c) hl
                  simp only at h1 h2
                  omega
              by_cases ht : t = baseInstrumentTicker
              · subst ht
                have hzo : frozenOfOrder o baseInstrumentTicker = o.amount * p :=
                  frozenOfOrder_resting_bid_base hstat hdir hp
                have hzo' : frozenOfOrder (applyFill o c) baseInstrumentTicker =
                    (o.amount - c) * p := frozenOfOrder_applyFill_bid_base hdir hp c
                have hmul : (o.amount - c) * p + c * p = o.amount * p := by
                  rw [← Nat.add_mul]
                  congr 1
                  omega
                simp only [holdingsTotal, availableTotal, frozenTotal, eq_self_iff_true,
                  if_true]
                simp only [hzo, hzo'] at hfroz
                simp only at husers
                omega
              · by_cases htt : t = ticker
                · subst htt
                  have hzo : frozenOfOrder o t = 0 := frozenOfOrder_bid_nonbase hdir ht
                  have hzo' : frozenOfOrder (applyFill o c) t = 0 := by
                    rw [frozenOfOrder_applyFill_bid hdir, if_neg]
                    intro hcq
                    exact ht hcq.1
                  simp only [holdingsTotal, availableTotal, if_neg ht, frozenTotal]
                  simp only [hzo, hzo'] at hfroz
                  rw [hinvt]
                  omega
                · have hzo : frozenOfOrder o t = 0 := frozenOfOrder_bid_nonbase hdir ht
                  have hzo' : frozenOfOrder (applyFill o c) t = 0 := by
                    rw [frozenOfOrder_applyFill_bid hdir, if_neg]
                    intro hcq
                    exact ht hcq.1
                  have hi1 := invTotal_adjustVal_ne (adjustVal st.inventories
                    (sellerId, ticker) (· - c)) o.user_id (· + c) fun hcq => htt hcq.symm
                  have hi2 := invTotal_adjustVal_ne st.inventories sellerId (· - c)
                    fun hcq => htt hcq.symm
                  simp only [holdingsTotal, availableTotal, if_neg ht, frozenTotal]
                  simp only [hzo, hzo'] at hfroz
                  rw [hi1, hi2]
                  omega

/-! ### Service- and API-level inversion lemmas -/

theorem createLimitBuyOrder_ok_cases {st0 st' : ExchState} {ticker : Ticker} {qty : Nat}
    {price : Option Nat} {userId : UserId} {oid ts : Nat} {n : Order}
    (h : createLimitBuyOrder st0 ticker qty price userId oid ts = .ok st' n) :
    ∃ st1, matchBuy st0 (getOrders st0 ticker .ASK qty)
        { id := oid, user_id := userId, instrument_ticker := ticker, amount := qty,
          filled := 0, price := price, direction := .BID, status := .NEW, created_at := ts }
        userId ticker price = .ok (st1, n) ∧
      ((n.status = OrderStatusEnum.EXECUTED ∧ st' = { st1 with orders := st1.orders ++ [n] }) ∨
        (n.status ≠ OrderStatusEnum.EXECUTED ∧ truthy price = true ∧
          ∃ st2, freezeBalance st1 userId baseInstrumentTicker (n.amount * n.price.getD 0)
              = .ok st2 ∧ st' = { st2 with orders := st2.orders ++ [n] })) := by
  unfold createLimitBuyOrder at h
  dsimp only at h
  split at h
  next stX nX hres =>
    simp only [ServiceResult.ok.injEq] at h
    obtain ⟨rfl, rfl⟩ := h
    split at hres
    next e hm => simp at hres
    next st1 n1 hm =>
      split at hres
      next hnex =>
        split at hres
        next htr =>
          split at hres
          next e hfr => simp at hres
          next st2 hfr =>
            simp only [Except.ok.injEq, Prod.mk.injEq] at hres
            obtain ⟨rfl, rfl⟩ := hres
            exact ⟨st1, hm, Or.inr ⟨hnex, htr, st2, hfr, rfl⟩⟩
        next htr => simp at hres
      next hnex =>
        simp only [Except.ok.injEq, Prod.mk.injEq] at hres
        obtain ⟨rfl, rfl⟩ := hres
        push_neg at hnex
        exact ⟨st1, hm, Or.inl ⟨hnex, rfl⟩⟩
  next stX msg hres => simp at h

theorem createLimitSellOrder_ok_cases {st0 st' : ExchState} {ticker : Ticker} {qty : Nat}
    {price : Option Nat} {userId : UserId} {oid ts : Nat} {n : Order}
    (h : createLimitSellOrder st0 ticker qty price userId oid ts = .ok st' n) :
    ∃ st1, matchSell st0 (getOrders st0 ticker .BID qty)
        { id := oid, user_id := userId, instrument_ticker := ticker, amount := qty,
          filled := 0, price := price, direction := .ASK, status := .NEW, created_at := ts }
        userId ticker price = .ok (st1, n) ∧
      ((n.status = OrderStatusEnum.EXECUTED ∧ st' = { st1 with orders := st1.orders ++ [n] }) ∨
        (n.status ≠ OrderStatusEnum.EXECUTED ∧ truthy price = true ∧
          ∃ st2, freezeBalance st1 userId ticker n.amount = .ok st2 ∧
            st' = { st2 with orders := st2.orders ++ [n] })) := by
  unfold createLimitSellOrder at h
  dsimp only at h
  split at h
  next stX nX hres =>
    simp only [ServiceResult.ok.injEq] at h
    obtain ⟨rfl, rfl⟩ := h
    split at hres
    next e hm => simp at hres
    next st1 n1 hm =>
      split at hres
      next hnex =>
        split at hres
        next htr =>
          split at hres
          next e hfr => simp at hres
          next st2 hfr =>
            simp only [Except.ok.injEq, Prod.mk.injEq] at hres
            obtain ⟨rfl, rfl⟩ := hres
            exact ⟨st1, hm, Or.inr ⟨hnex, htr, st2, hfr, rfl⟩⟩
        next htr => simp at hres
      next hnex =>
        simp only [Except.ok.injEq, Prod.mk.injEq] at hres
        obtain ⟨rfl, rfl⟩ := hres
        push_neg at hnex
        exact ⟨st1, hm, Or.inl ⟨hnex, rfl⟩⟩
  next stX msg hres => simp at h

theorem createOrderApi_ok_inv {st st' : ExchState} {userId : UserId} {direction : String}
    {ticker : Ticker} {qty : Nat} {price : Option Nat} {oid ts roid : Nat}
    (h : createOrderApi st userId direction ticker qty price oid ts = .ok st' roid) :
    ticker ∈ st.instruments ∧
    ∃ price' n, roid = n.id ∧ n.status ≠ OrderStatusEnum.CANCELLED ∧
      ((direction = "BUY" ∧
          createLimitBuyOrder st ticker qty price' userId oid ts = .ok st' n) ∨
        (direction ≠ "BUY" ∧
          createLimitSellOrder st ticker qty price' userId oid ts = .ok st' n)) := by
  unfold createOrderApi at h
  split at h
  case isTrue hins =>
    dsimp only at h
    refine ⟨hins, ?_⟩
    by_cases hdir : direction = "BUY"
    · rw [if_pos hdir] at h
      by_cases htr : truthy price
      · rw [if_pos htr] at h
        split at h
        next stX n hsvc =>
          split at h
          · simp at h
          next hcanc =>
            simp only [ApiResult.ok.injEq] at h
            obtain ⟨rfl, rfl⟩ := h
            exact ⟨price, n, rfl, hcanc, Or.inl ⟨hdir, hsvc⟩⟩
        next => simp at h
      · rw [if_neg htr] at h
        split at h
        next stX n hsvc =>
          split at h
          · simp at h
          next hcanc =>
            simp only [ApiResult.ok.injEq] at h
            obtain ⟨rfl, rfl⟩ := h
            exact ⟨none, n, rfl, hcanc, Or.inl ⟨hdir, hsvc⟩⟩
        next => simp at h
    · rw [if_neg hdir] at h
      by_cases htr : truthy price
      · rw [if_pos htr] at h
        split at h
        next stX n hsvc =>
          split at h
          · simp at h
          next hcanc =>
            simp only [ApiResult.ok.injEq] at h
            obtain ⟨rfl, rfl⟩ := h
            exact ⟨price, n, rfl, hcanc, Or.inr ⟨hdir, hsvc⟩⟩
        next => simp at h
      · rw [if_neg htr] at h
        split at h
        next stX n hsvc =>
          split at h
          · simp at h
          next hcanc =>
            simp only [ApiResult.ok.injEq] at h
            obtain ⟨rfl, rfl⟩ := h
            exact ⟨none, n, rfl, hcanc, Or.inr ⟨hdir, hsvc⟩⟩
        next => simp at h
  case isFalse => simp at h

theorem cancelOrder_ok_inv {st st' : ExchState} {orderId : Nat} {userId : UserId}
    (h : cancelOrder st orderId userId = .ok st') :
    ∃ o p st1, findOrder st.orders orderId = some o ∧ o.user_id = userId ∧
      o.status = OrderStatusEnum.NEW ∧ o.price = some p ∧
      ((o.direction = DirectionEnum.ASK ∧
          unfreezeBalance st userId o.instrument_ticker o.amount = .ok st1) ∨
        (o.direction = DirectionEnum.BID ∧
          unfreezeBalance st userId baseInstrumentTicker (o.amount * p) = .ok st1)) ∧
      st' = { st1 with
        orders := replaceOrder st1.orders orderId { o with status := .CANCELLED } } := by
  unfold cancelOrder at h
  split at h
  · simp at h
  next o hfo =>
    split at h
    · simp at h
    next hown =>
      split at h
      · simp at h
      next hstat =>
        split at h
        · simp at h
        next p hp =>
          push_neg at hown
          have hnew : o.status = OrderStatusEnum.NEW := by
            push_neg at hstat
            cases hs : o.status
            · rfl
            · exact absurd hs hstat.2.1
            · exact absurd hs hstat.1
            · exact absurd hs hstat.2.2
          dsimp only at h
          split at h
          next e hunf => simp at h
          next st1 hunf =>
            simp only [Except.ok.injEq] at h
            refine ⟨o, p, st1, hfo, hown, hnew, hp, ?_, h.symm⟩
            revert hunf
            cases hdir : o.direction
            · exact fun hunf => Or.inl ⟨rfl, hunf⟩
            · exact fun hunf => Or.inr ⟨rfl, hunf⟩

theorem cancelOrderApi_ok_inv {st st' : ExchState} {orderId : Nat} {userId : UserId}
    {roid : Nat} (h : cancelOrderApi st orderId userId = .ok st' roid) :
    cancelOrder st orderId userId = .ok st' := by
  unfold cancelOrderApi at h
  split at h
  next st1 hc =>
    simp only [ApiResult.ok.injEq] at h
    rw [hc, h.1]
  next msg hc => simp at h
  next e hc hne => simp at h

theorem findOrder_eq_none {l : List Order} {oid : Nat} (h : ∀ o ∈ l, o.id ≠ oid) :
    findOrder l oid = none := by
  induction l with
  | nil => rfl
  | cons x rest ih =>
    rw [findOrder, if_neg (h x (List.mem_cons_self ..))]
    exact ih fun o ho => h o (List.mem_cons_of_mem _ ho)

theorem findOrder_append_fresh {l : List Order} {oid : Nat} {n : Order}
    (h : ∀ o ∈ l, o.id ≠ oid) (hn : n.id = oid) : findOrder (l ++ [n]) oid = some n := by
  rw [findOrder_append, findOrder_eq_none h]
  rw [findOrder, if_pos hn]

theorem replaceOrder_append_fresh {l : List Order} {oid : Nat} {n n' : Order}
    (h : ∀ o ∈ l, o.id ≠ oid) (hn : n.id = oid) :
    replaceOrder (l ++ [n]) oid n' = l ++ [n'] := by
  induction l with
  | nil => simp [replaceOrder, hn]
  | cons x rest ih =>
    simp only [List.cons_append, replaceOrder, if_neg (h x (List.mem_cons_self ..)),
      List.append_eq]
    rw [ih fun o ho => h o (List.mem_cons_of_mem _ ho)]

theorem freezeBalance_ok_shape {st st1 : ExchState} {uid : UserId} {tk : Ticker} {amt : Nat}
    (h : freezeBalance st uid tk amt = .ok st1) :
    st1.orders = st.orders ∧ st1.instruments = st.instruments ∧
      st1.transactions = st.transactions := by
  unfold freezeBalance at h
  split at h
  · simp at h
  · split at h
    · split at h
      · simp at h
      · obtain rfl := Option.some_injective _ (by simpa using h)
        exact ⟨rfl, rfl, rfl⟩
    · split at h
      · simp at h
      · split at h
        · simp at h
        · obtain rfl := Option.some_injective _ (by simpa using h)
          exact ⟨rfl, rfl, rfl⟩

theorem unfreezeBalance_ok_shape {st st1 : ExchState} {uid : UserId} {tk : Ticker} {amt : Nat}
    (h : unfreezeBalance st uid tk amt = .ok st1) :
    st1.orders = st.orders ∧ st1.instruments = st.instruments ∧
      st1.transactions = st.transactions := by
  unfold unfreezeBalance at h
  split at h
  · simp at h
  · split at h
    · obtain rfl := Option.some_injective _ (by simpa using h)
      exact ⟨rfl, rfl, rfl⟩
    · split at h
      · obtain rfl := Option.some_injective _ (by simpa using h)
        exact ⟨rfl, rfl, rfl⟩
      · obtain rfl := Option.some_injective _ (by simpa using h)
        exact ⟨rfl, rfl, rfl⟩

/-! ### Conservation through a whole submission -/

theorem createLimitBuyOrder_conserves {st0 st' : ExchState} {ticker : Ticker} {qty : Nat}
    {price : Option Nat} {userId : UserId} {oid ts : Nat} {n : Order}
    (hw : st0.WFOrders) (htk : ticker ≠ baseInstrumentTicker)
    (h : createLimitBuyOrder st0 ticker qty price userId oid ts = .ok st' n) :
    ∀ t, holdingsTotal st' t = holdingsTotal st0 t := by
  obtain ⟨st1, hm, hrest⟩ := createLimitBuyOrder_ok_cases h
  have hfindB : ∀ o ∈ getOrders st0 ticker .ASK qty, findOrder st0.orders o.id = some o :=
    fun o ho => findOrder_of_mem_nodup hw (mem_getOrders ho).1
  have hnodupB := getOrders_nodup_ids hw ticker .ASK qty
  have hbookB : ∀ o ∈ getOrders st0 ticker .ASK qty, o.direction = DirectionEnum.ASK ∧
      o.instrument_ticker = ticker ∧ (o.status = OrderStatusEnum.NEW ∨
        o.status = OrderStatusEnum.PARTIALLY_EXECUTED) := by
    intro o ho
    obtain ⟨_, h1, h2, h3⟩ := mem_getOrders ho
    exact ⟨h2, h1, h3⟩
  have hcons := matchBuy_conserves hfindB hnodupB hbookB htk hm
  obtain ⟨_, _, _, _, hpr, hdir, _, _, hstat, _, _, _⟩ := matchBuy_ok hfindB hnodupB hm
  rcases hrest with ⟨hex, rfl⟩ | ⟨hnex, htr, st2, hfr, rfl⟩
  · intro t
    have hz : frozenOfOrder n t = 0 := frozenOfOrder_executed hex t
    simp only [holdingsTotal, availableTotal, frozenTotal, List.map_append, List.sum_append,
      List.map_cons, List.map_nil, List.sum_cons, List.sum_nil, hz]
    have := hcons t
    simp only [holdingsTotal, availableTotal, frozenTotal] at this
    omega
  · obtain ⟨bal, hbal, hle, rfl⟩ := freezeBalance_base_ok hfr
    have hresting : n.status = OrderStatusEnum.NEW ∨
        n.status = OrderStatusEnum.PARTIALLY_EXECUTED := by
      rcases hstat with rfl | ⟨he, _⟩ | ⟨hpe, _⟩
      · exact Or.inl rfl
      · exact absurd he hnex
      · exact Or.inr hpe
    obtain ⟨p, hp⟩ : ∃ p, price = some p := by
      cases price
      · simp [truthy] at htr
      · exact ⟨_, rfl⟩
    have hnp : n.price = some p := by rw [hpr, hp]
    have hfz : frozenOfOrder n baseInstrumentTicker = n.amount * p :=
      frozenOfOrder_resting_bid_base hresting (by rw [hdir]) hnp
    have hamt : n.amount * n.price.getD 0 = n.amount * p := by rw [hnp]; rfl
    have hsums := sumVals_adjustVal (· - n.amount * n.price.getD 0) hbal
    intro t
    by_cases ht : t = baseInstrumentTicker
    · subst ht
      simp only [holdingsTotal, availableTotal, frozenTotal, eq_self_iff_true, if_true,
        List.map_append, List.sum_append, List.map_cons, List.map_nil, List.sum_cons,
        List.sum_nil, hfz]
      have := hcons baseInstrumentTicker
      simp only [holdingsTotal, availableTotal, frozenTotal, eq_self_iff_true, if_true] at this
      simp only [hamt] at hsums ⊢
      omega
    · have hz : frozenOfOrder n t = 0 := frozenOfOrder_bid_nonbase (by rw [hdir]) ht
      simp only [holdingsTotal, availableTotal, frozenTotal, if_neg ht, List.map_append,
        List.sum_append, List.map_cons, List.map_nil, List.sum_cons, List.sum_nil, hz]
      have := hcons t
      simp only [holdingsTotal, availableTotal, frozenTotal, if_neg ht] at this
      omega

theorem createLimitSellOrder_conserves {st0 st' : ExchState} {ticker : Ticker} {qty : Nat}
    {price : Option Nat} {userId : UserId} {oid ts : Nat} {n : Order}
    (hw : st0.WFOrders) (htk : ticker ≠ baseInstrumentTicker)
    (h : createLimitSellOrder st0 ticker qty price userId oid ts = .ok st' n) :
    ∀ t, holdingsTotal st' t = holdingsTotal st0 t := by
  obtain ⟨st1, hm, hrest⟩ := createLimitSellOrder_ok_cases h
  have hfindB : ∀ o ∈ getOrders st0 ticker .BID qty, findOrder st0.orders o.id = some o :=
    fun o ho => findOrder_of_mem_nodup hw (mem_getOrders ho).1
  have hnodupB := getOrders_nodup_ids hw ticker .BID qty
  have hbookB : ∀ o ∈ getOrders st0 ticker .BID qty, o.direction = DirectionEnum.BID ∧
      o.instrument_ticker = ticker ∧ (o.status = OrderStatusEnum.NEW ∨
        o.status = OrderStatusEnum.PARTIALLY_EXECUTED) := by
    intro o ho
    obtain ⟨_, h1, h2, h3⟩ := mem_getOrders ho
    exact ⟨h2, h1, h3⟩
  have hcons := matchSell_conserves hfindB hnodupB hbookB htk hm
  obtain ⟨_, _, _, htickn, _, hdir, _, _, hstat, _, _, _⟩ := matchSell_ok hfindB hnodupB hm
  rcases hrest with ⟨hex, rfl⟩ | ⟨hnex, htr, st2, hfr, rfl⟩
  · intro t
    have hz : frozenOfOrder n t = 0 := frozenOfOrder_executed hex t
    simp only [holdingsTotal, availableTotal, frozenTotal, List.map_append, List.sum_append,
      List.map_cons, List.map_nil, List.sum_cons, List.sum_nil, hz]
    have := hcons t
    simp only [holdingsTotal, availableTotal, frozenTotal] at this
    omega
  · obtain ⟨bal, q, hbal, hq, hle, rfl⟩ := freezeBalance_nonbase_ok htk hfr
    have hresting : n.status = OrderStatusEnum.NEW ∨
        n.status = OrderStatusEnum.PARTIALLY_EXECUTED := by
      rcases hstat with rfl | ⟨he, _⟩ | ⟨hpe, _⟩
      · exact Or.inl rfl
      · exact absurd he hnex
      · exact Or.inr hpe
    have hfz : ∀ t, frozenOfOrder n t = if ticker = t then n.amount else 0 := by
      intro t
      rw [frozenOfOrder_resting_ask hresting (by rw [hdir]), htickn]
    have hsums := invTotal_adjustVal_eq (· - n.amount) hq
    intro t
    by_cases ht : t = baseInstrumentTicker
    · subst ht
      have hz : frozenOfOrder n baseInstrumentTicker = 0 := by
        rw [hfz, if_neg htk]
      simp only [holdingsTotal, availableTotal, frozenTotal, eq_self_iff_true, if_true,
        List.map_append, List.sum_append, List.map_cons, List.map_nil, List.sum_cons,
        List.sum_nil, hz]
      have := hcons baseInstrumentTicker
      simp only [holdingsTotal, availableTotal, frozenTotal, eq_self_iff_true, if_true] at this
      omega
    · by_cases htt : t = ticker
      · subst htt
        have hz : frozenOfOrder n t = n.amount := by rw [hfz, if_pos rfl]
        simp only [holdingsTotal, availableTotal, frozenTotal, if_neg ht, List.map_append,
          List.sum_append, List.map_cons, List.map_nil, List.sum_cons, List.sum_nil, hz]
        have := hcons t
        simp only [holdingsTotal, availableTotal, frozenTotal, if_neg ht] at this
        simp only at hsums
        omega
      · have hz : frozenOfOrder n t = 0 := by
          rw [hfz, if_neg fun hc => htt hc.symm]
        have hinv := invTotal_adjustVal_ne st1.inventories userId (· - n.amount)
          fun hc => htt hc.symm
        simp only [holdingsTotal, availableTotal, frozenTotal, if_neg ht, List.map_append,
          List.sum_append, List.map_cons, List.map_nil, List.sum_cons, List.sum_nil, hz]
        have := hcons t
        simp only [holdingsTotal, availableTotal, frozenTotal, if_neg ht] at this
        omega

/-! ### Claim theorems -/

/-- C1: for every fill settled during a submission, only the incoming
counterparty's available funds or units are debited — `_execute_buy` leaves
the resting seller's inventory untouched and `_execute_sell` leaves the
resting buyer's cash untouched — both counterparties are credited what they
receive, and consequently, for each ticker including the base instrument,
the sum across all users of available plus frozen holdings is unchanged by
any submission that returns success. -/
theorem claim_C1_settlement_and_conservation :
    (∀ (st st' : ExchState) (sellerId buyerId : UserId) (ticker : Ticker) (p k : Nat),
      executeBuy st sellerId buyerId ticker p k = .ok st' → sellerId ≠ buyerId →
      lookupVal st'.inventories (sellerId, ticker) =
          lookupVal st.inventories (sellerId, ticker) ∧
      (∀ u, u ≠ sellerId → u ≠ buyerId → lookupVal st'.users u = lookupVal st.users u) ∧
      (∀ key, key ≠ (buyerId, ticker) →
        lookupVal st'.inventories key = lookupVal st.inventories key) ∧
      (∃ sb, lookupVal st.users sellerId = some sb ∧
        lookupVal st'.users sellerId = some (sb + k * p)) ∧
      (∃ bb, lookupVal st.users buyerId = some bb ∧ k * p ≤ bb ∧
        lookupVal st'.users buyerId = some (bb - k * p)) ∧
      (∃ bq, lookupVal st.inventories (buyerId, ticker) = some bq ∧
        lookupVal st'.inventories (buyerId, ticker) = some (bq + k))) ∧
    (∀ (st st' : ExchState) (sellerId buyerId : UserId) (ticker : Ticker) (p k : Nat),
      executeSell st sellerId buyerId ticker p k = .ok st' → sellerId ≠ buyerId →
      lookupVal st'.users buyerId = lookupVal st.users buyerId ∧
      (∀ u, u ≠ sellerId → lookupVal st'.users u = lookupVal st.users u) ∧
      (∀ key, key ≠ (sellerId, ticker) → key ≠ (buyerId, ticker) →
        lookupVal st'.inventories key = lookupVal st.inventories key) ∧
      (∃ sb, lookupVal st.users sellerId = some sb ∧
        lookupVal st'.users sellerId = some (sb + k * p)) ∧
      (∃ sq, lookupVal st.inventories (sellerId, ticker) = some sq ∧ k ≤ sq ∧
        lookupVal st'.inventories (sellerId, ticker) = some (sq - k)) ∧
      (∃ bq, lookupVal st.inventories (buyerId, ticker) = some bq ∧
        lookupVal st'.inventories (buyerId, ticker) = some (bq + k))) ∧
    (∀ (st st' : ExchState) (userId : UserId) (direction : String) (ticker : Ticker)
        (qty : Nat) (price : Option Nat) (oid ts roid : Nat),
      st.WFOrders → ticker ≠ baseInstrumentTicker →
      createOrderApi st userId direction ticker qty price oid ts = .ok st' roid →
      ∀ t, holdingsTotal st' t = holdingsTotal st t) := by
  refine ⟨?_, ?_, ?_⟩
  · intro st st' sellerId buyerId ticker p k h hne
    obtain ⟨bb, sb, bq, hbb, hsb, hbq, hcost, rfl⟩ := executeBuy_ok h
    have hkey : ((sellerId, ticker) : UserId × Ticker) ≠ (buyerId, ticker) :=
      fun hc => hne (congrArg Prod.fst hc)
    refine ⟨lookupVal_adjustVal_ne _ _ hkey, ?_, ?_, ?_, ?_, ?_⟩
    · intro u hus hub
      rw [lookupVal_adjustVal_ne _ _ hub, lookupVal_adjustVal_ne _ _ hus]
    · intro key hk
      exact lookupVal_adjustVal_ne _ _ hk
    · refine ⟨sb, hsb, ?_⟩
      rw [lookupVal_adjustVal_ne _ _ hne, lookupVal_adjustVal_self, hsb]
      rfl
    · refine ⟨bb, hbb, by omega, ?_⟩
      rw [lookupVal_adjustVal_self, lookupVal_adjustVal_ne _ _ fun hc => hne hc.symm, hbb]
      rfl
    · refine ⟨bq, hbq, ?_⟩
      rw [lookupVal_adjustVal_self, hbq]
      rfl
  · intro st st' sellerId buyerId ticker p k h hne
    obtain ⟨sb, bb, sq, bq, hsb, hbb, hsq, hbq, hcnt, rfl⟩ := executeSell_ok h
    have hkey : ((buyerId, ticker) : UserId × Ticker) ≠ (sellerId, ticker) :=
      fun hc => hne (congrArg Prod.fst hc).symm
    refine ⟨?_, ?_, ?_, ?_, ?_, ?_⟩
    · exact lookupVal_adjustVal_ne _ _ fun hc => hne hc.symm
    · intro u hus
      exact lookupVal_adjustVal_ne _ _ hus
    · intro key hks hkb
      rw [lookupVal_adjustVal_ne _ _ hkb, lookupVal_adjustVal_ne _ _ hks]
    · refine ⟨sb, hsb, ?_⟩
      rw [lookupVal_adjustVal_self, hsb]
      rfl
    · refine ⟨sq, hsq, by omega, ?_⟩
      rw [lookupVal_adjustVal_ne _ _ hkey.symm, lookupVal_adjustVal_self, hsq]
      rfl
    · refine ⟨bq, hbq, ?_⟩
      rw [lookupVal_adjustVal_self, lookupVal_adjustVal_ne _ _ hkey, hbq]
      rfl
  · intro st st' userId direction ticker qty price oid ts roid hw htk h
    obtain ⟨hins, price', n, _, _, hcases⟩ := createOrderApi_ok_inv h
    rcases hcases with ⟨_, hsvc⟩ | ⟨_, hsvc⟩
    · exact createLimitBuyOrder_conserves hw htk hsvc
    · exact createLimitSellOrder_conserves hw htk hsvc

/-- Scenario state backing the C1 witness: Alice (0) with 5 available
MEMCOIN, Bob (1) with 1000 cash; used for direct settlement calls. -/
def c1wState : ExchState :=
  { users := [(0, 0), (1, 1000)],
    inventories := [((0, "MEMCOIN"), 5), ((1, "MEMCOIN"), 0)],
    instruments := ["MEMCOIN"],
    orders := [],
    transactions := [] }

/-- Result of `executeBuy c1wState 0 1 "MEMCOIN" 100 5`. -/
def c1wBuyRes : ExchState :=
  { users := [(0, 500), (1, 500)],
    inventories := [((0, "MEMCOIN"), 5), ((1, "MEMCOIN"), 5)],
    instruments := ["MEMCOIN"],
    orders := [],
    transactions := [⟨0, 1, "MEMCOIN", 5, 100⟩] }

/-- Scenario state for the C1 conservation witness: Alice has a resting ASK
of 5 MEMCOIN at 100 (her available inventory is down to 5). -/
def c1wState2 : ExchState :=
  { users := [(0, 0), (1, 1000)],
    inventories := [((0, "MEMCOIN"), 5), ((1, "MEMCOIN"), 0)],
    instruments := ["MEMCOIN"],
    orders := [⟨1, 0, "MEMCOIN", 5, 0, some 100, .ASK, .NEW, 1⟩],
    transactions := [] }

/-- Committed state after Bob submits limit BUY 5 at 100 into `c1wState2`. -/
def c1wApiRes : ExchState :=
  { users := [(0, 500), (1, 500)],
    inventories := [((0, "MEMCOIN"), 5), ((1, "MEMCOIN"), 5)],
    instruments := ["MEMCOIN"],
    orders := [⟨1, 0, "MEMCOIN", 0, 5, some 100, .ASK, .EXECUTED, 1⟩,
      ⟨2, 1, "MEMCOIN", 0, 5, some 100, .BID, .EXECUTED, 2⟩],
    transactions := [⟨0, 1, "MEMCOIN", 5, 100⟩] }

theorem claim_C1_witness :
    lookupVal c1wBuyRes.inventories (0, "MEMCOIN") =
      lookupVal c1wState.inventories (0, "MEMCOIN") ∧
    holdingsTotal c1wApiRes "MEMCOIN" = holdingsTotal c1wState2 "MEMCOIN" ∧
    holdingsTotal c1wApiRes "RUB" = holdingsTotal c1wState2 "RUB" := by
  have h1 := claim_C1_settlement_and_conservation.1 c1wState c1wBuyRes 0 1 "MEMCOIN" 100 5
    (by rfl) (by decide)
  have h3 := claim_C1_settlement_and_conservation.2.2 c1wState2 c1wApiRes 1 "BUY" "MEMCOIN"
    5 (some 100) 2 2 2 (by unfold ExchState.WFOrders; decide) (by decide) (by rfl)
  exact ⟨h1.1, h3 "MEMCOIN", h3 "RUB"⟩

/-- Scenario for C2: Alice (0) rests SELL 5 MEMCOIN at 100 (order id 1,
status NEW, her remaining available inventory 5); Bob (1) holds 1000 cash. -/
def c2State : ExchState :=
  { users := [(0, 0), (1, 1000)],
    inventories := [((0, "MEMCOIN"), 5), ((1, "MEMCOIN"), 0)],
    instruments := ["MEMCOIN"],
    orders := [⟨1, 0, "MEMCOIN", 5, 0, some 100, .ASK, .NEW, 1⟩],
    transactions := [] }

/-- C2, behaviour at the failing input: Bob submits a market BUY of 10
against a resting depth of 5.  The service raises instead of returning the
CANCELLED order it flushed, so the handler's `except OrderExecutionError`
branch rolls the session back — wiping that CANCELLED record — and responds
HTTP 422 with detail "Not enough orders for market buy", not
"ORDER CANCELLED".  The committed state is exactly the pre-request state:
no trade, no order in any status for the submission, Alice's ASK still NEW
with amount 5, balances unchanged. -/
theorem claim_C2_market_insufficient_depth :
    createOrderApi c2State 1 "BUY" "MEMCOIN" 10 none 2 2 =
      .err 422 "Not enough orders for market buy" c2State ∧
    "Not enough orders for market buy" ≠ "ORDER CANCELLED" ∧
    ∀ o ∈ c2State.orders, o.status = OrderStatusEnum.NEW ∧ o.id ≠ 2 := by
  refine ⟨by rfl, by decide, by decide⟩

/-- C3: if a limit submission matches (possibly zero) fills and then the
residual freeze fails with `InsufficientBalance`, the request handler rolls
the whole transaction back: the submission fails as an `OrderExecutionError`
(HTTP 422 carrying the wrapped message "Insufficient balance") and the
committed state is exactly the pre-request state — in particular no order
record is persisted in any status and every earlier fill of the submission
is undone.  Both directions are covered. -/
theorem claim_C3_freeze_failure_rolls_back :
    (∀ (st st1 : ExchState) (userId : UserId) (ticker : Ticker) (qty : Nat)
        (price : Option Nat) (oid ts : Nat) (n : Order) (tk : Ticker) (req avail : Nat),
      ticker ∈ st.instruments → truthy price = true →
      matchBuy st (getOrders st ticker .ASK qty)
        { id := oid, user_id := userId, instrument_ticker := ticker, amount := qty,
          filled := 0, price := price, direction := .BID, status := .NEW, created_at := ts }
        userId ticker price = .ok (st1, n) →
      n.status ≠ OrderStatusEnum.EXECUTED →
      freezeBalance st1 userId baseInstrumentTicker (n.amount * n.price.getD 0) =
        .error (.InsufficientBalance tk req avail) →
      createOrderApi st userId "BUY" ticker qty price oid ts =
        .err 422 "Insufficient balance" st) ∧
    (∀ (st st1 : ExchState) (userId : UserId) (ticker : Ticker) (qty : Nat)
        (price : Option Nat) (oid ts : Nat) (n : Order) (tk : Ticker) (req avail : Nat),
      ticker ∈ st.instruments → truthy price = true →
      matchSell st (getOrders st ticker .BID qty)
        { id := oid, user_id := userId, instrument_ticker := ticker, amount := qty,
          filled := 0, price := price, direction := .ASK, status := .NEW, created_at := ts }
        userId ticker price = .ok (st1, n) →
      n.status ≠ OrderStatusEnum.EXECUTED →
      freezeBalance st1 userId ticker n.amount =
        .error (.InsufficientBalance tk req avail) →
      createOrderApi st userId "SELL" ticker qty price oid ts =
        .err 422 "Insufficient balance" st) := by
  constructor
  · intro st st1 userId ticker qty price oid ts n tk req avail hins htr hm hnex hfr
    have hsvc : createLimitBuyOrder st ticker qty price userId oid ts =
        ServiceResult.raised
          { st with orders := st.orders ++
              [{ id := oid, user_id := userId, instrument_ticker := ticker, amount := qty,
                 filled := 0, price := price, direction := .BID, status := .CANCELLED,
                 created_at := ts }] }
          "Insufficient balance" := by
      unfold createLimitBuyOrder
      dsimp only
      rw [hm]
      dsimp only
      rw [if_pos hnex, if_pos htr, hfr]
      rfl
    unfold createOrderApi
    rw [if_pos hins]
    dsimp only
    rw [if_pos rfl, if_pos htr, hsvc]
  · intro st st1 userId ticker qty price oid ts n tk req avail hins htr hm hnex hfr
    have hsvc : createLimitSellOrder st ticker qty price userId oid ts =
        ServiceResult.raised
          { st with orders := st.orders ++
              [{ id := oid, user_id := userId, instrument_ticker := ticker, amount := qty,
                 filled := 0, price := price, direction := .ASK, status := .CANCELLED,
                 created_at := ts }] }
          "Insufficient balance" := by
      unfold createLimitSellOrder
      dsimp only
      rw [hm]
      dsimp only
      rw [if_pos hnex, if_pos htr, hfr]
      rfl
    unfold createOrderApi
    rw [if_pos hins]
    dsimp only
    rw [if_neg (by decide : ¬("SELL" = "BUY")), if_pos htr, hsvc]

/-- Scenario for the C3 witness: Bob (1) holds 100 cash, the MEMCOIN book
is empty, and he submits limit BUY 4 at 50 — the residual freeze of 200
exceeds his balance. -/
def c3State : ExchState :=
  { users := [(1, 100)],
    inventories := [],
    instruments := ["MEMCOIN"],
    orders := [],
    transactions := [] }

theorem claim_C3_witness :
    createOrderApi c3State 1 "BUY" "MEMCOIN" 4 (some 50) 7 7 =
      .err 422 "Insufficient balance" c3State :=
  claim_C3_freeze_failure_rolls_back.1 c3State c3State 1 "MEMCOIN" 4 (some 50) 7 7
    ⟨7, 1, "MEMCOIN", 4, 0, some 50, .BID, .NEW, 7⟩ "RUB" 200 100
    (by decide) (by decide) (by rfl) (by decide) (by rfl)

/-- C4: every trade recorded by a submission carries the *resting* order's
limit price (and the resting order's owner as the resting-side counterparty):
for an incoming BID the resting seller's ASK price is used, for an incoming
ASK the resting buyer's BID price is used — never the incoming order's own
price. -/
theorem claim_C4_maker_pricing :
    (∀ (st st' : ExchState) (userId : UserId) (ticker : Ticker) (qty : Nat)
        (price : Option Nat) (oid ts roid : Nat), st.WFOrders →
      createOrderApi st userId "BUY" ticker qty price oid ts = .ok st' roid →
      ∃ txs, st'.transactions = st.transactions ++ txs ∧
        ∀ tx ∈ txs, ∃ o ∈ getOrders st ticker .ASK qty,
          o.price = some tx.price ∧ o.user_id = tx.user_from_id) ∧
    (∀ (st st' : ExchState) (userId : UserId) (ticker : Ticker) (qty : Nat)
        (price : Option Nat) (oid ts roid : Nat), st.WFOrders →
      createOrderApi st userId "SELL" ticker qty price oid ts = .ok st' roid →
      ∃ txs, st'.transactions = st.transactions ++ txs ∧
        ∀ tx ∈ txs, ∃ o ∈ getOrders st ticker .BID qty,
          o.price = some tx.price ∧ o.user_id = tx.user_to_id) := by
  constructor
  · intro st st' userId ticker qty price oid ts roid hw h
    obtain ⟨hins, price', n, _, _, hcases⟩ := createOrderApi_ok_inv h
    rcases hcases with ⟨_, hsvc⟩ | ⟨hne, _⟩
    swap
    · exact absurd rfl hne
    obtain ⟨st1, hm, hrest⟩ := createLimitBuyOrder_ok_cases hsvc
    have hfindB : ∀ o ∈ getOrders st ticker .ASK qty, findOrder st.orders o.id = some o :=
      fun o ho => findOrder_of_mem_nodup hw (mem_getOrders ho).1
    have hnodupB := getOrders_nodup_ids hw ticker .ASK qty
    obtain ⟨_, _, _, _, _, _, _, _, _, ⟨txs, htx, htxmem⟩, _, _⟩ :=
      matchBuy_ok hfindB hnodupB hm
    have htrans : st'.transactions = st1.transactions := by
      rcases hrest with ⟨_, rfl⟩ | ⟨_, _, st2, hfr, rfl⟩
      · rfl
      · exact (freezeBalance_ok_shape hfr).2.2
    refine ⟨txs, by rw [htrans, htx], ?_⟩
    intro tx htxm
    obtain ⟨o, ho, h1, h2, _, _⟩ := htxmem tx htxm
    exact ⟨o, ho, h1, h2⟩
  · intro st st' userId ticker qty price oid ts roid hw h
    obtain ⟨hins, price', n, _, _, hcases⟩ := createOrderApi_ok_inv h
    rcases hcases with ⟨hne, _⟩ | ⟨_, hsvc⟩
    · exact absurd hne (by decide)
    obtain ⟨st1, hm, hrest⟩ := createLimitSellOrder_ok_cases hsvc
    have hfindB : ∀ o ∈ getOrders st ticker .BID qty, findOrder st.orders o.id = some o :=
      fun o ho => findOrder_of_mem_nodup hw (mem_getOrders ho).1
    have hnodupB := getOrders_nodup_ids hw ticker .BID qty
    obtain ⟨_, _, _, _, _, _, _, _, _, ⟨txs, htx, htxmem⟩, _, _⟩ :=
      matchSell_ok hfindB hnodupB hm
    have htrans : st'.transactions = st1.transactions := by
      rcases hrest with ⟨_, rfl⟩ | ⟨_, _, st2, hfr, rfl⟩
      · rfl
      · exact (freezeBalance_ok_shape hfr).2.2
    refine ⟨txs, by rw [htrans, htx], ?_⟩
    intro tx htxm
    obtain ⟨o, ho, h1, h2, _, _⟩ := htxmem tx htxm
    exact ⟨o, ho, h1, h2⟩

/-- Scenario for the C4 witness: Alice (0) rests SELL 5 MEMCOIN at 100;
Bob (1) submits BUY 5 at limit 120; the trade must print at 100. -/
def c4State : ExchState :=
  { users := [(0, 0), (1, 1000)],
    inventories := [((0, "MEMCOIN"), 5), ((1, "MEMCOIN"), 0)],
    instruments := ["MEMCOIN"],
    orders := [⟨1, 0, "MEMCOIN", 5, 0, some 100, .ASK, .NEW, 1⟩],
    transactions := [] }

/-- Committed state after Bob's BUY 5 at 120 into `c4State`: one trade at the
resting price 100. -/
def c4Res : ExchState :=
  { users := [(0, 500), (1, 500)],
    inventories := [((0, "MEMCOIN"), 5), ((1, "MEMCOIN"), 5)],
    instruments := ["MEMCOIN"],
    orders := [⟨1, 0, "MEMCOIN", 0, 5, some 100, .ASK, .EXECUTED, 1⟩,
      ⟨2, 1, "MEMCOIN", 0, 5, some 120, .BID, .EXECUTED, 2⟩],
    transactions := [⟨0, 1, "MEMCOIN", 5, 100⟩] }

theorem claim_C4_witness :
    ∃ txs, c4Res.transactions = c4State.transactions ++ txs ∧
      ∀ tx ∈ txs, ∃ o ∈ getOrders c4State "MEMCOIN" .ASK 5,
        o.price = some tx.price ∧ o.user_id = tx.user_from_id :=
  claim_C4_maker_pricing.1 c4State c4Res 1 "MEMCOIN" 5 (some 120) 2 2 2
    (by unfold ExchState.WFOrders; decide) (by rfl)

/-- C5: the book view returns only resting (NEW or PARTIALLY_EXECUTED)
orders of the requested instrument and side, and returns them sorted by the
priority relation `bookLE` — ascending price for ASK, descending price for
BID, equal prices tie-broken by ascending creation timestamp — so a
submission walking the view consumes the better-priced order first and, at
equal price, the older order first. -/
theorem claim_C5_book_view_priority :
    ∀ (st : ExchState) (ticker : Ticker) (d : DirectionEnum) (lim : Nat),
      (∀ o ∈ getOrders st ticker d lim, o ∈ st.orders ∧ o.instrument_ticker = ticker ∧
        o.direction = d ∧
        (o.status = OrderStatusEnum.NEW ∨ o.status = OrderStatusEnum.PARTIALLY_EXECUTED)) ∧
      List.Sorted (bookLE d) (getOrders st ticker d lim) :=
  fun st ticker d lim =>
    ⟨fun _ ho => mem_getOrders ho, getOrders_sorted st ticker d lim⟩

/-- Scenario for the C5 witness: three resting ASKs on AAA (one partially
executed, at the best price but older), a CANCELLED ASK at an even better
price, and a resting BID; the view must return the three resting ASKs
only, best price first, ties oldest first. -/
def c5State : ExchState :=
  { users := [(0, 0)],
    inventories := [],
    instruments := ["AAA"],
    orders := [⟨1, 0, "AAA", 3, 0, some 101, .ASK, .NEW, 1⟩,
      ⟨2, 0, "AAA", 4, 0, some 100, .ASK, .NEW, 2⟩,
      ⟨3, 0, "AAA", 5, 2, some 100, .ASK, .PARTIALLY_EXECUTED, 1⟩,
      ⟨4, 0, "AAA", 6, 0, some 99, .ASK, .CANCELLED, 0⟩,
      ⟨5, 0, "AAA", 6, 0, some 98, .BID, .NEW, 0⟩],
    transactions := [] }

theorem claim_C5_witness :
    ((⟨3, 0, "AAA", 5, 2, some 100, .ASK, .PARTIALLY_EXECUTED, 1⟩ : Order) ∈ c5State.orders ∧
      (⟨3, 0, "AAA", 5, 2, some 100, .ASK, .PARTIALLY_EXECUTED, 1⟩ : Order).instrument_ticker
        = "AAA" ∧
      (⟨3, 0, "AAA", 5, 2, some 100, .ASK, .PARTIALLY_EXECUTED, 1⟩ : Order).direction
        = .ASK ∧
      ((⟨3, 0, "AAA", 5, 2, some 100, .ASK, .PARTIALLY_EXECUTED, 1⟩ : Order).status
          = OrderStatusEnum.NEW ∨
        (⟨3, 0, "AAA", 5, 2, some 100, .ASK, .PARTIALLY_EXECUTED, 1⟩ : Order).status
          = OrderStatusEnum.PARTIALLY_EXECUTED)) ∧
    List.Sorted (bookLE .ASK) (getOrders c5State "AAA" .ASK 10) :=
  ⟨(claim_C5_book_view_priority c5State "AAA" .ASK 10).1
      ⟨3, 0, "AAA", 5, 2, some 100, .ASK, .PARTIALLY_EXECUTED, 1⟩ (by decide),
    (claim_C5_book_view_priority c5State "AAA" .ASK 10).2⟩

/-- C6: every committed operation keeps the order invariants (`amount` and
`filled` live in `Nat`, every subtraction in the source being guarded):
after a successful submission every stored order has a status consistent
with its residue — NEW or PARTIALLY_EXECUTED implies `amount > 0` and
EXECUTED implies `amount = 0` — and `amount + filled` is preserved for every
pre-existing order while it equals the submitted `qty` for the new order
(so EXECUTED orders have `filled = qty`); a successful cancellation likewise
preserves the invariants and every order's `amount + filled`. -/
theorem claim_C6_order_invariants :
    (∀ (st st' : ExchState) (userId : UserId) (direction : String) (ticker : Ticker)
        (qty : Nat) (price : Option Nat) (oid ts roid : Nat),
      st.WFOrders → 0 < qty → (∀ o ∈ st.orders, OrderOK o) →
      createOrderApi st userId direction ticker qty price oid ts = .ok st' roid →
      (∀ o ∈ st'.orders, OrderOK o) ∧
      (∀ oid' o2, findOrder st'.orders oid' = some o2 →
        (∃ o1, findOrder st.orders oid' = some o1 ∧
          o2.amount + o2.filled = o1.amount + o1.filled) ∨
        o2.amount + o2.filled = qty)) ∧
    (∀ (st st' : ExchState) (orderId : Nat) (userId : UserId) (roid : Nat),
      (∀ o ∈ st.orders, OrderOK o) →
      cancelOrderApi st orderId userId = .ok st' roid →
      (∀ o ∈ st'.orders, OrderOK o) ∧
      (∀ oid' o2, findOrder st'.orders oid' = some o2 →
        ∃ o1, findOrder st.orders oid' = some o1 ∧
          o2.amount + o2.filled = o1.amount + o1.filled)) := by
  constructor
  · intro st st' userId direction ticker qty price oid ts roid hw hqty hOK h
    obtain ⟨hins, price', n, _, _, hcases⟩ := createOrderApi_ok_inv h
    have hmain : ∃ st1 : ExchState, st'.orders = st1.orders ++ [n] ∧
        (∀ x ∈ st1.orders, x ∈ st.orders ∨ OrderOK x) ∧
        (∀ oid2, findOrder st1.orders oid2 = findOrder st.orders oid2 ∨
          ∃ o1 o2, findOrder st.orders oid2 = some o1 ∧
            findOrder st1.orders oid2 = some o2 ∧
            o2.amount + o2.filled = o1.amount + o1.filled ∧ OrderOK o2) ∧
        n.amount + n.filled = qty ∧ OrderOK n := by
      rcases hcases with ⟨_, hsvc⟩ | ⟨_, hsvc⟩
      · obtain ⟨st1, hm, hrest⟩ := createLimitBuyOrder_ok_cases hsvc
        have hfindB : ∀ o ∈ getOrders st ticker .ASK qty,
            findOrder st.orders o.id = some o :=
          fun o ho => findOrder_of_mem_nodup hw (mem_getOrders ho).1
        have hnodupB := getOrders_nodup_ids hw ticker .ASK qty
        obtain ⟨_, _, _, _, _, _, _, hsum, hstat, _, hevol, hmem⟩ :=
          matchBuy_ok hfindB hnodupB hm
        have horders : st'.orders = st1.orders ++ [n] := by
          rcases hrest with ⟨_, rfl⟩ | ⟨_, _, st2, hfr, rfl⟩
          · rfl
          · exact congrArg (· ++ [n]) (freezeBalance_ok_shape hfr).1
        refine ⟨st1, horders, hmem, hevol, by simpa using hsum, ?_⟩
        rcases hstat with rfl | ⟨he, ha⟩ | ⟨hp2, ha⟩
        · exact ⟨fun _ => hqty, fun hc => absurd hc (by simp)⟩
        · refine ⟨fun hc => ?_, fun _ => ha⟩
          rw [he] at hc
          rcases hc with hc | hc <;> simp at hc
        · exact ⟨fun _ => ha, fun hc => by rw [hp2] at hc; simp at hc⟩
      · obtain ⟨st1, hm, hrest⟩ := createLimitSellOrder_ok_cases hsvc
        have hfindB : ∀ o ∈ getOrders st ticker .BID qty,
            findOrder st.orders o.id = some o :=
          fun o ho => findOrder_of_mem_nodup hw (mem_getOrders ho).1
        have hnodupB := getOrders_nodup_ids hw ticker .BID qty
        obtain ⟨_, _, _, _, _, _, _, hsum, hstat, _, hevol, hmem⟩ :=
          matchSell_ok hfindB hnodupB hm
        have horders : st'.orders = st1.orders ++ [n] := by
          rcases hrest with ⟨_, rfl⟩ | ⟨_, _, st2, hfr, rfl⟩
          · rfl
          · exact congrArg (· ++ [n]) (freezeBalance_ok_shape hfr).1
        refine ⟨st1, horders, hmem, hevol, by simpa using hsum, ?_⟩
        rcases hstat with rfl | ⟨he, ha⟩ | ⟨hp2, ha⟩
        · exact ⟨fun _ => hqty, fun hc => absurd hc (by simp)⟩
        · refine ⟨fun hc => ?_, fun _ => ha⟩
          rw [he] at hc
          rcases hc with hc | hc <;> simp at hc
        · exact ⟨fun _ => ha, fun hc => by rw [hp2] at hc; simp at hc⟩
    obtain ⟨st1, horders, hmem, hevol, hnqty, hnOK⟩ := hmain
    constructor
    · intro x hx
      rw [horders] at hx
      rcases List.mem_append.mp hx with hx1 | hx2
      · rcases hmem x hx1 with hxs | hxok
        · exact hOK x hxs
        · exact hxok
      · rw [List.mem_singleton.mp hx2]
        exact hnOK
    · intro oid' o2 hfind2
      rw [horders, findOrder_append] at hfind2
      cases hf1 : findOrder st1.orders oid' with
      | some o2' =>
        rw [hf1] at hfind2
        obtain rfl : o2' = o2 := Option.some_injective _ hfind2
        rcases hevol oid' with heq | ⟨o1, o2x, h1, h2, h3, _⟩
        · rw [hf1] at heq
          exact Or.inl ⟨o2', heq.symm, rfl⟩
        · rw [hf1] at h2
          have he2 : o2' = o2x := Option.some_injective _ h2
          exact Or.inl ⟨o1, h1, by rw [he2]; exact h3⟩
      | none =>
        rw [hf1] at hfind2
        simp only [findOrder] at hfind2
        split at hfind2
        · obtain rfl : n = o2 := Option.some_injective _ hfind2
          exact Or.inr hnqty
        · simp at hfind2
  · intro st st' orderId userId roid hOK h
    obtain ⟨o, p, st1, hfo, hown, hnew, hp, hunf, rfl⟩ :=
      cancelOrder_ok_inv (cancelOrderApi_ok_inv h)
    have horders : st1.orders = st.orders := by
      rcases hunf with ⟨_, hu⟩ | ⟨_, hu⟩ <;> exact (unfreezeBalance_ok_shape hu).1
    have hoid : o.id = orderId := (findOrder_mem hfo).2
    constructor
    · intro x hx
      simp only [horders] at hx
      rcases mem_replaceOrder hx with hx1 | rfl
      · exact hOK x hx1
      · exact ⟨fun hc => by simp at hc, fun hc => by simp at hc⟩
    · intro oid' o2 hfind2
      simp only [horders] at hfind2
      by_cases hoe : oid' = orderId
      · have hself : findOrder (replaceOrder st.orders orderId
            { o with status := .CANCELLED }) oid' = some { o with status := .CANCELLED } := by
          rw [hoe]
          exact findOrder_replaceOrder_self hfo hoid
        rw [hself] at hfind2
        obtain rfl := Option.some_injective _ hfind2
        exact ⟨o, by rw [hoe]; exact hfo, rfl⟩
      · rw [@findOrder_replaceOrder_ne st.orders orderId oid'
          { o with status := OrderStatusEnum.CANCELLED } hoid hoe] at hfind2
        exact ⟨o2, hfind2, rfl⟩

/-- Scenario for the C6 witness: Alice (0) rests SELL 5 MEMCOIN at 100;
Bob (1) submits BUY 8 at 100 — partial fill, residue 3 rests frozen. -/
def c6State : ExchState :=
  { users := [(0, 0), (1, 1000)],
    inventories := [((0, "MEMCOIN"), 5), ((1, "MEMCOIN"), 0)],
    instruments := ["MEMCOIN"],
    orders := [⟨1, 0, "MEMCOIN", 5, 0, some 100, .ASK, .NEW, 1⟩],
    transactions := [] }

/-- Committed state after Bob's BUY 8 at 100 into `c6State`. -/
def c6Res : ExchState :=
  { users := [(0, 500), (1, 200)],
    inventories := [((0, "MEMCOIN"), 5), ((1, "MEMCOIN"), 5)],
    instruments := ["MEMCOIN"],
    orders := [⟨1, 0, "MEMCOIN", 0, 5, some 100, .ASK, .EXECUTED, 1⟩,
      ⟨2, 1, "MEMCOIN", 3, 5, some 100, .BID, .PARTIALLY_EXECUTED, 2⟩],
    transactions := [⟨0, 1, "MEMCOIN", 5, 100⟩] }

theorem claim_C6_witness :
    (∀ o ∈ c6Res.orders, OrderOK o) ∧
    (∀ oid' o2, findOrder c6Res.orders oid' = some o2 →
      (∃ o1, findOrder c6State.orders oid' = some o1 ∧
        o2.amount + o2.filled = o1.amount + o1.filled) ∨
      o2.amount + o2.filled = 8) :=
  claim_C6_order_invariants.1 c6State c6Res 1 "BUY" "MEMCOIN" 8 (some 100) 2 2 2
    (by unfold ExchState.WFOrders; decide) (by decide)
    (by unfold OrderOK; decide) (by rfl)

/-- C7: placing a limit order that matches nothing (empty opposite book) and
then cancelling it restores the owner's available balances exactly.  For a
BID the freeze debits `qty * price` cash and the cancellation credits the
same amount back; for an ASK the freeze debits `qty` units of the ticker and
the cancellation credits them back; the order ends CANCELLED. -/
theorem claim_C7_place_cancel_roundtrip :
    (∀ (st : ExchState) (userId : UserId) (ticker : Ticker) (qty p oid ts bal : Nat),
      p ≠ 0 → ticker ∈ st.instruments →
      lookupVal st.users userId = some bal → qty * p ≤ bal →
      getOrders st ticker .ASK qty = [] →
      (∀ o ∈ st.orders, o.id ≠ oid) →
      ∃ st1, createOrderApi st userId "BUY" ticker qty (some p) oid ts = .ok st1 oid ∧
        lookupVal st1.users userId = some (bal - qty * p) ∧
        st1.inventories = st.inventories ∧
        ∃ st2, cancelOrderApi st1 oid userId = .ok st2 oid ∧
          lookupVal st2.users userId = lookupVal st.users userId ∧
          st2.inventories = st.inventories ∧
          findOrder st2.orders oid =
            some ⟨oid, userId, ticker, qty, 0, some p, .BID, .CANCELLED, ts⟩) ∧
    (∀ (st : ExchState) (userId : UserId) (ticker : Ticker) (qty p oid ts q : Nat),
      p ≠ 0 → ticker ∈ st.instruments → ticker ≠ baseInstrumentTicker →
      (∃ bal, lookupVal st.users userId = some bal) →
      lookupVal st.inventories (userId, ticker) = some q → qty ≤ q →
      getOrders st ticker .BID qty = [] →
      (∀ o ∈ st.orders, o.id ≠ oid) →
      ∃ st1, createOrderApi st userId "SELL" ticker qty (some p) oid ts = .ok st1 oid ∧
        lookupVal st1.inventories (userId, ticker) = some (q - qty) ∧
        st1.users = st.users ∧
        ∃ st2, cancelOrderApi st1 oid userId = .ok st2 oid ∧
          lookupVal st2.inventories (userId, ticker) =
            lookupVal st.inventories (userId, ticker) ∧
          (∀ tk, tk ≠ ticker →
            lookupVal st2.inventories (userId, tk) = lookupVal st.inventories (userId, tk)) ∧
          st2.users = st.users ∧
          findOrder st2.orders oid =
            some ⟨oid, userId, ticker, qty, 0, some p, .ASK, .CANCELLED, ts⟩) := by
  constructor
  · intro st userId ticker qty p oid ts bal hp hins hbal hle hbook hfresh
    have htr : truthy (some p) = true := by simp [truthy, hp]
    have hsvc : createLimitBuyOrder st ticker qty (some p) userId oid ts =
        ServiceResult.ok
          { st with
            users := adjustVal st.users userId (· - qty * p),
            orders := st.orders ++
              [⟨oid, userId, ticker, qty, 0, some p, .BID, .NEW, ts⟩] }
          ⟨oid, userId, ticker, qty, 0, some p, .BID, .NEW, ts⟩ := by
      unfold createLimitBuyOrder
      dsimp only
      rw [hbook]
      simp only [matchBuy]
      rw [if_pos (by decide : (OrderStatusEnum.NEW : OrderStatusEnum) ≠ .EXECUTED), if_pos htr]
      unfold freezeBalance
      rw [hbal]
      dsimp only
      rw [if_pos rfl, if_neg (by simp only [Option.getD_some]; omega : ¬bal < qty * ((some p).getD 0))]
      rfl
    refine ⟨{ st with
        users := adjustVal st.users userId (· - qty * p),
        orders := st.orders ++
          [⟨oid, userId, ticker, qty, 0, some p, .BID, .NEW, ts⟩] }, ?_, ?_, rfl, ?_⟩
    · unfold createOrderApi
      rw [if_pos hins]
      dsimp only
      rw [if_pos rfl, if_pos htr, hsvc]
      rfl
    · rw [lookupVal_adjustVal_self, hbal]
      rfl
    · have hfind1 : findOrder (st.orders ++
          [⟨oid, userId, ticker, qty, 0, some p, .BID, .NEW, ts⟩]) oid =
          some ⟨oid, userId, ticker, qty, 0, some p, .BID, .NEW, ts⟩ :=
        findOrder_append_fresh hfresh rfl
      have hlk1 : lookupVal (adjustVal st.users userId (· - qty * p)) userId =
          some (bal - qty * p) := by
        rw [lookupVal_adjustVal_self, hbal]
        rfl
      have hcanc : cancelOrder
          { st with
            users := adjustVal st.users userId (· - qty * p),
            orders := st.orders ++
              [⟨oid, userId, ticker, qty, 0, some p, .BID, .NEW, ts⟩] } oid userId =
          Except.ok
            { st with
              users := adjustVal (adjustVal st.users userId (· - qty * p)) userId
                (· + qty * p),
              orders := st.orders ++
                [⟨oid, userId, ticker, qty, 0, some p, .BID, .CANCELLED, ts⟩] } := by
        unfold cancelOrder
        rw [hfind1]
        dsimp only
        rw [if_neg (by simp), if_neg (by decide :
          ¬((OrderStatusEnum.NEW : OrderStatusEnum) = .PARTIALLY_EXECUTED ∨
            (OrderStatusEnum.NEW : OrderStatusEnum) = .EXECUTED ∨
            (OrderStatusEnum.NEW : OrderStatusEnum) = .CANCELLED))]
        unfold unfreezeBalance
        rw [hlk1]
        dsimp only
        rw [if_pos rfl]
        dsimp only
        rw [replaceOrder_append_fresh hfresh rfl]
      refine ⟨{ st with
          users := adjustVal (adjustVal st.users userId (· - qty * p)) userId (· + qty * p),
          orders := st.orders ++
            [⟨oid, userId, ticker, qty, 0, some p, .BID, .CANCELLED, ts⟩] },
        ?_, ?_, rfl, findOrder_append_fresh hfresh rfl⟩
      · unfold cancelOrderApi
        rw [hcanc]
      · rw [lookupVal_adjustVal_self, lookupVal_adjustVal_self, hbal]
        simp only [Option.map_some']
        rw [Nat.sub_add_cancel hle]
  · intro st userId ticker qty p oid ts q hp hins htk hbal hq hle hbook hfresh
    obtain ⟨bal, hbal⟩ := hbal
    have htr : truthy (some p) = true := by simp [truthy, hp]
    have hsvc : createLimitSellOrder st ticker qty (some p) userId oid ts =
        ServiceResult.ok
          { st with
            inventories := adjustVal st.inventories (userId, ticker) (· - qty),
            orders := st.orders ++
              [⟨oid, userId, ticker, qty, 0, some p, .ASK, .NEW, ts⟩] }
          ⟨oid, userId, ticker, qty, 0, some p, .ASK, .NEW, ts⟩ := by
      unfold createLimitSellOrder
      dsimp only
      rw [hbook]
      simp only [matchSell]
      rw [if_pos (by decide : (OrderStatusEnum.NEW : OrderStatusEnum) ≠ .EXECUTED), if_pos htr]
      unfold freezeBalance
      rw [hbal]
      dsimp only
      rw [if_neg htk, hq]
      dsimp only
      rw [if_neg (by omega : ¬q < qty)]
    refine ⟨{ st with
        inventories := adjustVal st.inventories (userId, ticker) (· - qty),
        orders := st.orders ++
          [⟨oid, userId, ticker, qty, 0, some p, .ASK, .NEW, ts⟩] }, ?_, ?_, rfl, ?_⟩
    · unfold createOrderApi
      rw [if_pos hins]
      dsimp only
      rw [if_neg (by decide : ¬("SELL" = "BUY")), if_pos htr, hsvc]
      rfl
    · rw [lookupVal_adjustVal_self, hq]
      rfl
    · have hfind1 : findOrder (st.orders ++
          [⟨oid, userId, ticker, qty, 0, some p, .ASK, .NEW, ts⟩]) oid =
          some ⟨oid, userId, ticker, qty, 0, some p, .ASK, .NEW, ts⟩ :=
        findOrder_append_fresh hfresh rfl
      have hlk1 : lookupVal (adjustVal st.inventories (userId, ticker) (· - qty))
          (userId, ticker) = some (q - qty) := by
        rw [lookupVal_adjustVal_self, hq]
        rfl
      have hcanc : cancelOrder
          { st with
            inventories := adjustVal st.inventories (userId, ticker) (· - qty),
            orders := st.orders ++
              [⟨oid, userId, ticker, qty, 0, some p, .ASK, .NEW, ts⟩] } oid userId =
          Except.ok
            { st with
              inventories := adjustVal (adjustVal st.inventories (userId, ticker) (· - qty))
                (userId, ticker) (· + qty),
              orders := st.orders ++
                [⟨oid, userId, ticker, qty, 0, some p, .ASK, .CANCELLED, ts⟩] } := by
        unfold cancelOrder
        rw [hfind1]
        dsimp only
        rw [if_neg (by simp), if_neg (by decide :
          ¬((OrderStatusEnum.NEW : OrderStatusEnum) = .PARTIALLY_EXECUTED ∨
            (OrderStatusEnum.NEW : OrderStatusEnum) = .EXECUTED ∨
            (OrderStatusEnum.NEW : OrderStatusEnum) = .CANCELLED))]
        unfold unfreezeBalance
        rw [hbal]
        dsimp only
        rw [if_neg htk, hlk1]
        dsimp only
        rw [replaceOrder_append_fresh hfresh rfl]
      refine ⟨{ st with
          inventories := adjustVal (adjustVal st.inventories (userId, ticker) (· - qty))
            (userId, ticker) (· + qty),
          orders := st.orders ++
            [⟨oid, userId, ticker, qty, 0, some p, .ASK, .CANCELLED, ts⟩] },
        ?_, ?_, ?_, rfl, findOrder_append_fresh hfresh rfl⟩
      · unfold cancelOrderApi
        rw [hcanc]
      · rw [lookupVal_adjustVal_self, lookupVal_adjustVal_self, hq]
        simp only [Option.map_some']
        rw [Nat.sub_add_cancel hle]
      · intro tk htkne
        have hkey : ((userId, tk) : UserId × Ticker) ≠ (userId, ticker) :=
          fun hc => htkne (congrArg Prod.snd hc)
        rw [lookupVal_adjustVal_ne _ _ hkey, lookupVal_adjustVal_ne _ _ hkey]

/-- Scenario for the C7 witness: Bob (1) holds 1000 cash; he places limit
BUY 4 at 50 on an empty book (200 frozen) and then cancels. -/
def c7State : ExchState :=
  { users := [(1, 1000)],
    inventories := [],
    instruments := ["MEMCOIN"],
    orders := [],
    transactions := [] }

theorem claim_C7_witness :
    ∃ st1, createOrderApi c7State 1 "BUY" "MEMCOIN" 4 (some 50) 9 9 = .ok st1 9 ∧
      lookupVal st1.users 1 = some (1000 - 4 * 50) ∧
      st1.inventories = c7State.inventories ∧
      ∃ st2, cancelOrderApi st1 9 1 = .ok st2 9 ∧
        lookupVal st2.users 1 = lookupVal c7State.users 1 ∧
        st2.inventories = c7State.inventories ∧
        findOrder st2.orders 9 =
          some ⟨9, 1, "MEMCOIN", 4, 0, some 50, .BID, .CANCELLED, 9⟩ :=
  claim_C7_place_cancel_roundtrip.1 c7State 1 "MEMCOIN" 4 50 9 9 1000
    (by decide) (by decide) (by rfl) (by decide) (by rfl) (by decide)

/-! ### Dictionary lemmas for the balance query -/

theorem lookupVal_dictSet_self (l : List (Ticker × Nat)) (k : Ticker) (v : Nat) :
    lookupVal (dictSet l k v) k = some v := by
  induction l with
  | nil => simp [dictSet, lookupVal]
  | cons kv rest ih =>
    obtain ⟨k', v'⟩ := kv
    by_cases h : k' = k
    · simp [dictSet, h, lookupVal]
    · simp [dictSet, h, lookupVal, ih]

theorem lookupVal_dictSet_ne (l : List (Ticker × Nat)) {k k' : Ticker} (v : Nat)
    (h : k' ≠ k) : lookupVal (dictSet l k v) k' = lookupVal l k' := by
  induction l with
  | nil =>
    simp only [dictSet, lookupVal]
    rw [if_neg fun hc => h hc.symm]
  | cons kv rest ih =>
    obtain ⟨k0, v0⟩ := kv
    by_cases h0 : k0 = k
    · subst h0
      have hne : k0 ≠ k' := fun hc => h hc.symm
      simp [dictSet, lookupVal, hne]
    · simp [dictSet, lookupVal, h0, ih]

theorem dictFold_lookup_none {rows : List (Ticker × Nat)} {t : Ticker}
    (h : lookupVal rows t = none) (acc : List (Ticker × Nat)) :
    lookupVal (rows.foldl (fun res kv => dictSet res kv.1 kv.2) acc) t =
      lookupVal acc t := by
  induction rows generalizing acc with
  | nil => rfl
  | cons kv rest ih =>
    obtain ⟨k, v⟩ := kv
    by_cases hk : k = t
    · simp only [lookupVal, if_pos hk] at h
      exact absurd h (by simp)
    · simp only [lookupVal, if_neg hk] at h
      rw [List.foldl_cons, ih h, lookupVal_dictSet_ne _ _ fun hc => hk hc.symm]

theorem dictFold_lookup_mem {rows : List (Ticker × Nat)} {t : Ticker} {v : Nat}
    (hn : (rows.map Prod.fst).Nodup) (h : lookupVal rows t = some v)
    (acc : List (Ticker × Nat)) :
    lookupVal (rows.foldl (fun res kv => dictSet res kv.1 kv.2) acc) t = some v := by
  induction rows generalizing acc with
  | nil => simp [lookupVal] at h
  | cons kv rest ih =>
    obtain ⟨k, w⟩ := kv
    simp only [List.map_cons, List.nodup_cons] at hn
    by_cases hk : k = t
    · simp only [lookupVal, if_pos hk] at h
      obtain rfl : w = v := Option.some_injective _ h
      have hrest : lookupVal rest t = none := by
        cases hr : lookupVal rest t with
        | none => rfl
        | some u =>
          exfalso
          subst hk
          clear ih h
          induction rest with
          | nil => simp [lookupVal] at hr
          | cons kv2 rest2 ih2 =>
            obtain ⟨k2, v2⟩ := kv2
            by_cases h2 : k2 = k
            · exact hn.1 (by rw [← h2]; exact List.mem_cons_self ..)
            · simp only [lookupVal, if_neg h2] at hr
              have : k ∉ rest2.map Prod.fst := by
                intro hm
                exact hn.1 (List.mem_cons_of_mem _ hm)
              exact ih2 ⟨this, (List.nodup_cons.mp hn.2).2⟩ hr
      rw [List.foldl_cons, dictFold_lookup_none hrest, hk, lookupVal_dictSet_self]
    · simp only [lookupVal, if_neg hk] at h
      rw [List.foldl_cons]
      exact ih hn.2 h _

theorem lookupVal_userRows (l : List ((UserId × Ticker) × Nat)) (u : UserId) (t : Ticker) :
    lookupVal ((l.filter fun kv => kv.1.1 == u).map fun kv => (kv.1.2, kv.2)) t =
      lookupVal l (u, t) := by
  induction l with
  | nil => rfl
  | cons kv rest ih =>
    obtain ⟨⟨u', t'⟩, v⟩ := kv
    by_cases hu : u' = u
    · subst hu
      by_cases ht : t' = t
      · subst ht
        simp [lookupVal, List.filter_cons]
      · have hkey : ((u', t') : UserId × Ticker) ≠ (u', t) := by
          simp only [Ne, Prod.mk.injEq, not_and]
          exact fun _ => ht
        simp [lookupVal, List.filter_cons, ht, ih, hkey]
    · have hkey : ((u', t') : UserId × Ticker) ≠ (u, t) := by
        simp only [Ne, Prod.mk.injEq, not_and]
        intro hc
        exact absurd hc hu
      simp [lookupVal, List.filter_cons, hu, ih, hkey]

theorem nodup_snd_of_fixed_fst {ks : List (UserId × Ticker)} {u : UserId}
    (hall : ∀ k ∈ ks, k.1 = u) (hn : ks.Nodup) : (ks.map Prod.snd).Nodup := by
  induction ks with
  | nil => simp
  | cons k rest ih =>
    simp only [List.map_cons, List.nodup_cons]
    obtain ⟨hk1, hk2⟩ := List.nodup_cons.mp hn
    refine ⟨?_, ih (fun k2 hk => hall k2 (List.mem_cons_of_mem _ hk)) hk2⟩
    intro hm
    obtain ⟨k2, hk2m, hk2e⟩ := List.mem_map.mp hm
    have h1 : k2.1 = u := hall k2 (List.mem_cons_of_mem _ hk2m)
    have h0 : k.1 = u := hall k (List.mem_cons_self ..)
    have : k = k2 := by
      obtain ⟨a, b⟩ := k
      obtain ⟨c, d⟩ := k2
      simp only at h0 h1 hk2e
      rw [h0, h1, hk2e]
    exact hk1 (this ▸ hk2m)

theorem balanceStep_getD (res : List (Ticker × Nat)) (o : Order) (t : Ticker) :
    (lookupVal (balanceStep res o) t).getD 0 =
      (lookupVal res t).getD 0 + frozenOfOrder o t := by
  unfold balanceStep frozenOfOrder
  by_cases hst : o.status = OrderStatusEnum.NEW ∨ o.status = OrderStatusEnum.PARTIALLY_EXECUTED
  · rw [if_pos hst, if_pos hst]
    cases hdir : o.direction with
    | ASK =>
      dsimp only
      by_cases ht : o.instrument_ticker = t
      · rw [if_pos ht, ← ht]
        unfold dictAdd
        rw [lookupVal_dictSet_self]
        rfl
      · rw [if_neg ht]
        unfold dictAdd
        rw [lookupVal_dictSet_ne _ _ fun hc => ht hc.symm]
        omega
    | BID =>
      dsimp only
      by_cases htr : truthy o.price
      · rw [if_pos htr]
        by_cases ht : t = baseInstrumentTicker
        · rw [if_pos (And.intro ht htr), ht]
          unfold dictAdd
          rw [lookupVal_dictSet_self]
          rfl
        · rw [if_neg fun hc => ht hc.1]
          unfold dictAdd
          rw [lookupVal_dictSet_ne _ _ ht]
          omega
      · rw [if_neg htr, if_neg fun hc => htr hc.2]
        omega
  · rw [if_neg hst, if_neg hst]
    omega

theorem balanceFold_getD (orders : List Order) :
    ∀ (res : List (Ticker × Nat)) (t : Ticker),
    (lookupVal (orders.foldl balanceStep res) t).getD 0 =
      (lookupVal res t).getD 0 + (orders.map (frozenOfOrder · t)).sum := by
  induction orders with
  | nil => simp
  | cons o rest ih =>
    intro res t
    rw [List.foldl_cons, ih, List.map_cons, List.sum_cons, balanceStep_getD]
    omega

/-- C8: for a user that exists, the balance query succeeds and returns, per
ticker, available plus frozen holdings: the stored inventory quantity (the
cash balance for the base ticker) plus, over the user's orders with status
NEW or PARTIALLY_EXECUTED, `amount` for an ASK on that ticker and
`amount * price` on the base ticker for a BID with a price — orders in any
other status contributing nothing (all captured by `frozenOfOrder`). -/
theorem claim_C8_balance_query :
    ∀ (st : ExchState) (userId : UserId) (bal : Nat),
      (st.inventories.map Prod.fst).Nodup →
      lookupVal st.users userId = some bal →
      ∃ res, getUserBalance st userId = .ok res ∧
        ∀ t, (lookupVal res t).getD 0 =
          (if t = baseInstrumentTicker then bal
            else (lookupVal st.inventories (userId, t)).getD 0) +
          ((st.orders.filter fun o => o.user_id == userId).map (frozenOfOrder · t)).sum := by
  intro st userId bal hinv huser
  refine ⟨_, by rw [getUserBalance, huser], ?_⟩
  intro t
  rw [balanceFold_getD]
  congr 1
  by_cases ht : t = baseInstrumentTicker
  · rw [if_pos ht, ht, lookupVal_dictSet_self]
    rfl
  · rw [if_neg ht, lookupVal_dictSet_ne _ _ ht]
    have hrows : lookupVal ((st.inventories.filter fun kv => kv.1.1 == userId).map
        fun kv => (kv.1.2, kv.2)) t = lookupVal st.inventories (userId, t) :=
      lookupVal_userRows st.inventories userId t
    cases hlk : lookupVal st.inventories (userId, t) with
    | none =>
      rw [dictFold_lookup_none (by rw [hrows, hlk])]
      rfl
    | some v =>
      have hnodup : (((st.inventories.filter fun kv => kv.1.1 == userId).map
          fun kv => (kv.1.2, kv.2)).map Prod.fst).Nodup := by
        have h1 : ((st.inventories.filter fun kv => kv.1.1 == userId).map
            Prod.fst).Nodup := ((List.filter_sublist _).map Prod.fst).nodup hinv
        have h2 : ∀ k ∈ (st.inventories.filter fun kv => kv.1.1 == userId).map Prod.fst,
            k.1 = userId := by
          intro k hk
          obtain ⟨kv, hkv, rfl⟩ := List.mem_map.mp hk
          have := (List.mem_filter.mp hkv).2
          simpa using this
        have h3 := nodup_snd_of_fixed_fst h2 h1
        simpa [List.map_map, Function.comp] using h3
      rw [dictFold_lookup_mem hnodup (by rw [hrows, hlk])]

/-- Scenario for the C8 witness: user 0 holds 100 cash and 7 MEMCOIN
available, with a resting ASK freezing 3 MEMCOIN and a resting BID freezing
2 × 10 cash; a CANCELLED order contributes nothing. -/
def c8State : ExchState :=
  { users := [(0, 100)],
    inventories := [((0, "MEMCOIN"), 7)],
    instruments := ["MEMCOIN"],
    orders := [⟨1, 0, "MEMCOIN", 3, 1, some 20, .ASK, .PARTIALLY_EXECUTED, 1⟩,
      ⟨2, 0, "MEMCOIN", 2, 0, some 10, .BID, .NEW, 2⟩,
      ⟨3, 0, "MEMCOIN", 4, 0, some 5, .ASK, .CANCELLED, 3⟩],
    transactions := [] }

theorem claim_C8_witness :
    ∃ res, getUserBalance c8State 0 = .ok res ∧
      ∀ t, (lookupVal res t).getD 0 =
        (if t = baseInstrumentTicker then 100
          else (lookupVal c8State.inventories (0, t)).getD 0) +
        ((c8State.orders.filter fun o => o.user_id == 0).map (frozenOfOrder · t)).sum :=
  claim_C8_balance_query c8State 0 100 (by decide) (by rfl)

/-- Scenario for C9: order 1 belongs to user 0; user 1 tries to cancel it. -/
def c9State : ExchState :=
  { users := [(0, 100), (1, 100)],
    inventories := [((0, "MEMCOIN"), 5)],
    instruments := ["MEMCOIN"],
    orders := [⟨1, 0, "MEMCOIN", 5, 0, some 100, .ASK, .NEW, 1⟩],
    transactions := [] }

/-- C9 counterexample: a non-owner cancellation fails with
`OrderExecutionError` — whose HTTP status is 400, so neither `NotFound`
(404) nor `Forbidden` (403) — refuting the claim that only `NotFound` or
`Forbidden` can be raised on this path. -/
theorem claim_C9_counterexample :
    cancelOrder c9State 1 1 =
      .error (.OrderExecution "Order does not belong to user") ∧
    (DomainError.OrderExecution "Order does not belong to user").statusCode ≠ 404 ∧
    (DomainError.OrderExecution "Order does not belong to user").statusCode ≠ 403 ∧
    cancelOrderApi c9State 1 1 = .err 400 "Order does not belong to user" c9State :=
  ⟨by rfl, by decide, by decide, by rfl⟩

/-- C9 (amended): for every cancellation request by a caller who is not the
order's owner, the operation fails with `OrderExecutionError("Order does not
belong to user")`, surfaced by the handler as HTTP 400 after a rollback, and
leaves the order and all balances unchanged (the committed state is the
pre-request state). -/
theorem claim_C9_non_owner_cancel :
    ∀ (st : ExchState) (orderId : Nat) (userId : UserId) (o : Order),
      findOrder st.orders orderId = some o → o.user_id ≠ userId →
      cancelOrder st orderId userId =
        .error (.OrderExecution "Order does not belong to user") ∧
      cancelOrderApi st orderId userId =
        .err 400 "Order does not belong to user" st := by
  intro st orderId userId o hfo hown
  have hc : cancelOrder st orderId userId =
      .error (.OrderExecution "Order does not belong to user") := by
    unfold cancelOrder
    rw [hfo]
    dsimp only
    rw [if_pos hown]
  refine ⟨hc, ?_⟩
  unfold cancelOrderApi
  rw [hc]

theorem claim_C9_witness :
    cancelOrder c9State 1 1 =
      .error (.OrderExecution "Order does not belong to user") ∧
    cancelOrderApi c9State 1 1 = .err 400 "Order does not belong to user" c9State :=
  claim_C9_non_owner_cancel c9State 1 1 ⟨1, 0, "MEMCOIN", 5, 0, some 100, .ASK, .NEW, 1⟩
    (by rfl) (by decide)

/-- C10: cancelling a NEW ASK limit order whose owner has no inventory row
for the order's ticker still succeeds — `_unfreeze_balance` silently skips
the missing row (`if inventory:` with no else), so the only change to the
state is the order's status becoming CANCELLED and the frozen units are
credited nowhere — whereas `_freeze_balance` raises `NotFound("Inventory")`
on the same missing row. -/
theorem claim_C10_unfreeze_skips_missing_inventory :
    ∀ (st : ExchState) (oid : Nat) (userId : UserId) (o : Order) (p bal : Nat),
      findOrder st.orders oid = some o → o.user_id = userId →
      o.status = OrderStatusEnum.NEW → o.direction = DirectionEnum.ASK →
      o.price = some p → o.instrument_ticker ≠ baseInstrumentTicker →
      lookupVal st.users userId = some bal →
      lookupVal st.inventories (userId, o.instrument_ticker) = none →
      cancelOrderApi st oid userId =
        .ok { st with orders := replaceOrder st.orders oid { o with status := .CANCELLED } }
          oid ∧
      freezeBalance st userId o.instrument_ticker o.amount =
        .error (.NotFound "Inventory") := by
  intro st oid userId o p bal hfo hown hnew hdir hp htk hbal hinv
  refine ⟨?_, freezeBalance_nonbase_missing htk hbal hinv⟩
  have hc : cancelOrder st oid userId =
      .ok { st with orders := replaceOrder st.orders oid { o with status := .CANCELLED } } := by
    unfold cancelOrder
    rw [hfo]
    dsimp only
    rw [if_neg (by simp [hown] : ¬o.user_id ≠ userId),
      if_neg (by rw [hnew]; decide :
        ¬(o.status = OrderStatusEnum.PARTIALLY_EXECUTED ∨
          o.status = OrderStatusEnum.EXECUTED ∨ o.status = OrderStatusEnum.CANCELLED)),
      hp]
    dsimp only
    rw [hdir]
    dsimp only
    unfold unfreezeBalance
    rw [hbal]
    dsimp only
    rw [if_neg htk, hinv]
  unfold cancelOrderApi
  rw [hc]

/-- Scenario for the C10 witness: user 0 owns a NEW ASK of 3 MEMCOIN at 5
(order 1) but has no inventory row at all for MEMCOIN. -/
def c10State : ExchState :=
  { users := [(0, 50)],
    inventories := [],
    instruments := ["MEMCOIN"],
    orders := [⟨1, 0, "MEMCOIN", 3, 0, some 5, .ASK, .NEW, 1⟩],
    transactions := [] }

theorem claim_C10_witness :
    cancelOrderApi c10State 1 0 =
      .ok { c10State with
        orders := replaceOrder c10State.orders 1
          { (⟨1, 0, "MEMCOIN", 3, 0, some 5, .ASK, .NEW, 1⟩ : Order) with
            status := .CANCELLED } } 1 ∧
    freezeBalance c10State 0 "MEMCOIN" 3 = .error (.NotFound "Inventory") := by
  have h := claim_C10_unfreeze_skips_missing_inventory c10State 1 0
    ⟨1, 0, "MEMCOIN", 3, 0, some 5, .ASK, .NEW, 1⟩ 5 50
    (by rfl) (by rfl) (by rfl) (by rfl) (by rfl) (by decide) (by rfl) (by rfl)
  exact h

end Tochka
